import Mathlib

/-!
docgen: document model, fragment unmarshaler and directory scanner.

A shallow embedding of `parse.go`, `scan.go` and `generate.go` of
`go-pogo/docgen`, followed by theorems about it.

Conventions of the embedding.

* Go strings are Lean strings; `len` is the UTF-8 byte length.
* A Go `error` value is `Option Error`, `none` being `nil`.
* A Go run-time panic (index or slice bounds, nil dereference) is
  `Except.error` of a `Fault`.
* Pointers that are never nil once set (`*Package`, `*Section`) are the
  records they point to.  A `*Section` stored in `Package.Sections` is never
  written again, because `Write` replaces `u.cur` by a new Section in the
  very statement sequence that stores the old one; the stored copy and the
  Go object therefore agree.
* Functions of other libraries (`html.UnescapeString`, `filepath.Join`,
  `os.ReadFile`, `modfile.ParseLax`, ...) are parameters: theorems hold for
  every behaviour of them unless a hypothesis says otherwise.
-/

set_option linter.dupNamespace false

deriving instance DecidableEq for Except

namespace Docgen

/-! ## parse.go: document model -/

/-- A `module.Version` of golang.org/x/mod: module path and version. -/
structure Version where
  Path : String
  Version : String
deriving DecidableEq, Repr

/-- The `Module` record of scan.go: the embedded `module.Version`, the
dependencies and the path of the manifest file. -/
structure Module where
  Version : Version
  Deps : List Docgen.Version
  FilePath : String
deriving DecidableEq, Repr

/-- The `Block` interface of parse.go with its two implementations. -/
inductive Block where
  | ParaBlock (text : String)
  | PreBlock (text : String)
deriving DecidableEq, Repr

/-- The `Section` record of parse.go. -/
structure Section where
  Id : String
  Heading : String
  Blocks : List Block
deriving DecidableEq, Repr

/-- The `Package` record of parse.go; `Module` is `none` for a nil pointer. -/
structure Package where
  Name : String
  Path : String
  Module : Option Docgen.Module
  Sections : List Section
deriving DecidableEq, Repr

/-- `NewPackage(name, path, mod)`: a Package without Sections. -/
def NewPackage (name path : String) (mod : Option Module) : Package :=
  { Name := name, Path := path, Module := mod, Sections := [] }

/-- `NewSection(id)`: empty Heading, no Blocks. -/
def NewSection (id : String) : Section :=
  { Id := id, Heading := "", Blocks := [] }

/-! ## parse.go: the unmarshaler -/

/-- The `op` constants of parse.go (`opId` is the zero value). -/
inductive op where
  | opId
  | opHead
  | opPara
  | opPre
deriving DecidableEq, Repr

/-- The `unmarshaler` record: bound Package, pending Section, state and the
content of the `strings.Builder` line buffer. -/
structure unmarshaler where
  pkg : Package
  cur : Section
  op : Docgen.op
  line : String
deriving DecidableEq, Repr

/-- The zero value `var uw unmarshaler`; its two nil pointers are shown as
zero records, which `reset` overwrites before anything reads them. -/
def unmarshaler.zero : unmarshaler :=
  { pkg := { Name := "", Path := "", Module := none, Sections := [] },
    cur := { Id := "", Heading := "", Blocks := [] },
    op := op.opId,
    line := "" }

/-- `(*unmarshaler).reset(pkg)`. -/
def unmarshaler.reset (_u : unmarshaler) (pkg : Package) : unmarshaler :=
  { pkg := pkg, cur := NewSection "", op := op.opId, line := "" }

/-- `(*unmarshaler).Write(b)`, as the state it leaves; the Go function always
returns `len(b)` and a nil error.  `unescape` is `html.UnescapeString`. -/
def unmarshaler.Write (unescape : String → String) (u : unmarshaler) (s : String) :
    unmarshaler :=
  if s = "<h3 id=\"" then
    { u with op := op.opId }
  else if s = "<p>\n" then
    { u with op := op.opPara }
  else if s = "</p>\n" then
    { u with cur := { u.cur with Blocks := u.cur.Blocks ++ [Block.ParaBlock u.line] },
             line := "" }
  else if s = "<pre>" then
    { u with op := op.opPre }
  else if s = "</pre>\n" then
    { u with cur := { u.cur with Blocks := u.cur.Blocks ++ [Block.PreBlock u.line] },
             line := "" }
  else
    match u.op with
    | op.opId =>
      if s = "\">" then
        { u with op := op.opHead }
      else
        { u with pkg := { u.pkg with Sections := u.pkg.Sections ++ [u.cur] },
                 cur := NewSection s }
    | op.opHead =>
      if s = "</h3>\n" then
        { u with cur := { u.cur with Heading := u.line }, line := "" }
      else
        { u with line := u.line ++ unescape s }
    | op.opPara => { u with line := u.line ++ unescape s }
    | op.opPre => { u with line := u.line ++ unescape s }

/-- The renderer `doc.ToHTML(w, text, nil)` seen from the sink: one `Write`
per fragment, in emission order. -/
def unmarshaler.feed (unescape : String → String) (u : unmarshaler)
    (frags : List String) : unmarshaler :=
  frags.foldl (unmarshaler.Write unescape) u

/-- The five fragments that `Write` matches before it looks at `u.op`. -/
def isControl (s : String) : Bool :=
  s = "<h3 id=\"" || s = "<p>\n" || s = "</p>\n" || s = "<pre>" || s = "</pre>\n"

/-- The fragments of one block as the renderer emits them: opening marker,
text, closing marker. -/
def blockFrags : Block → List String
  | Block.ParaBlock t => ["<p>\n", t, "</p>\n"]
  | Block.PreBlock t => ["<pre>", t, "</pre>\n"]

/-- Text of a block. -/
def Block.text : Block → String
  | Block.ParaBlock t => t
  | Block.PreBlock t => t

/-- Concatenation of the strings of a list, first to last. -/
def concatAll : List String → String
  | [] => ""
  | x :: xs => x ++ concatAll xs

/-- A decoder of the five character entities that the renderer itself emits
(`&amp;`, `&lt;`, `&gt;`, `&#34;`, `&#39;`); on strings with no other
entity it agrees with `html.UnescapeString`.  Used only to instantiate the
`unescape` parameter at concrete inputs. -/
def decodeEntities : List Char → List Char
  | [] => []
  | '&' :: 'a' :: 'm' :: 'p' :: ';' :: cs => '&' :: decodeEntities cs
  | '&' :: 'l' :: 't' :: ';' :: cs => '<' :: decodeEntities cs
  | '&' :: 'g' :: 't' :: ';' :: cs => '>' :: decodeEntities cs
  | '&' :: '#' :: '3' :: '4' :: ';' :: cs => Char.ofNat 34 :: decodeEntities cs
  | '&' :: '#' :: '3' :: '9' :: ';' :: cs => Char.ofNat 39 :: decodeEntities cs
  | c :: cs => c :: decodeEntities cs

/-- String form of `decodeEntities`. -/
def unescapeBasic (s : String) : String :=
  String.mk (decodeEntities s.data)

/-- The part of the state that decides the Section and Block tree. -/
def unmarshaler.tree (u : unmarshaler) : List Section × Section × Docgen.op × String :=
  (u.pkg.Sections, u.cur, u.op, u.line)

/-! ## scan.go: errors, faults and the outside world -/

/-- Go `error` values met by the scanner.  `notExist` stands for the errors
on which `os.IsNotExist` is true, `traced` for `errors.Trace(err)` and
`multi` for two errors combined by `errors.Append`. -/
inductive Error where
  | notExist (path : String)
  | other (msg : String)
  | traced (err : Error)
  | multi (left right : Error)
deriving DecidableEq, Repr

/-- Run-time panics of the Go code, and exhaustion of the recursion budget
of `scanner.scanDir`. -/
inductive Fault where
  | indexOutOfRange
  | sliceBounds
  | nilDereference
  | outOfFuel
deriving DecidableEq, Repr

/-- `errors.Trace(err)` for a non-nil `err`: the error wrapped with a trace. -/
def Trace (err : Error) : Error := Error.traced err

/-- `os.IsNotExist(err)`. -/
def IsNotExist : Error → Bool
  | Error.notExist _ => true
  | _ => false

/-- `errors.Append(&dest, err)` as the new value of `dest`: a nil `err` is
ignored, a nil `dest` takes `err`, two errors are combined. -/
def Append (dest err : Option Error) : Option Error :=
  match err with
  | none => dest
  | some e =>
    match dest with
    | none => some e
    | some d => some (Error.multi d e)

/-- Whether error `x` occurs in `e`: as `e` itself, under a trace or as a
member of a combined error. -/
def Error.contains (e x : Error) : Bool :=
  e = x ||
    match e with
    | Error.traced t => t.contains x
    | Error.multi l r => l.contains x || r.contains x
    | _ => false

/-- A `fs.DirEntry`: the two methods the scanner calls. -/
structure DirEntry where
  Name : String
  IsDir : Bool
deriving DecidableEq, Repr

/-- A `modfile.File`: `Module` is `none` when the manifest has no module
directive (a nil `*modfile.Module`), `Require` lists each `req.Mod`. -/
structure File where
  Module : Option Version
  Require : List Version
deriving DecidableEq, Repr

/-- An `ast.Package` as `parser.ParseDir` returns it. -/
structure AstPackage where
  Name : String
  Files : List String
deriving DecidableEq, Repr

/-- The fields of a `doc.Package` that the scanner reads. -/
structure DocPackage where
  Name : String
  Doc : String
deriving DecidableEq, Repr

/-- The functions of other packages that the scanner calls. -/
structure Env where
  /-- The function `filepath.Join(a, b)`. -/
  Join : String → String → String
  /-- The function `filepath.ToSlash(p)`. -/
  ToSlash : String → String
  /-- The function `path.Join(a, b)`. -/
  pathJoin : String → String → String
  /-- The function `os.ReadFile(path)`. -/
  ReadFile : String → Except Error String
  /-- The function `modfile.ParseLax(path, data, nil)`. -/
  ParseLax : String → String → Except Error File
  /-- The function `os.ReadDir(dir)`. -/
  ReadDir : String → Except Error (List DirEntry)
  /-- The function `parser.ParseDir(fset, dir, nil, parser.ParseComments)`,
  its map listed in the order the `range` loop visits it. -/
  ParseDir : String → Except Error (List AstPackage)
  /-- The function `doc.NewFromFiles(fset, files, importPath)`. -/
  NewFromFiles : AstPackage → String → Except Error DocPackage
  /-- The fragments that `doc.ToHTML(w, text, nil)` writes to `w`. -/
  ToHTML : String → List String
  /-- The function `html.UnescapeString(s)`. -/
  UnescapeString : String → String

/-! ## Go string primitives -/

/-- The index expression `s[i]` on a string: byte `i` of its UTF-8 form, a
panic when `i` is out of range. -/
def byteAt (s : String) (i : Nat) : Except Fault UInt8 :=
  match s.toUTF8.data[i]? with
  | some b => Except.ok b
  | none => Except.error Fault.indexOutOfRange

/-- The slice expression `s[n:]` on a string: a panic when `n` exceeds
`len(s)`, else the bytes from offset `n` on (read as text, which is exact
when `n` is a character boundary). -/
def sliceFrom (s : String) (n : Nat) : Except Fault String :=
  if s.utf8ByteSize < n then Except.error Fault.sliceBounds
  else Except.ok (s.extract (String.Pos.mk n) s.endPos)

/-- The function `strings.HasPrefix(s, pre)`. -/
def hasPrefixStr (s pre : String) : Bool := pre.data.isPrefixOf s.data

/-- Go `append(xs, x)` on a slice that may be nil (`none`). -/
def goAppend {α : Type} (xs : Option (List α)) (x : α) : Option (List α) :=
  some (xs.getD [] ++ [x])

/-! ## scan.go -/

/-- The type `ScanMode` (a `uint8` of flags). -/
abbrev ScanMode := Nat

/-- Flag `ScanModule`. -/
def ScanModule : ScanMode := 1
/-- Flag `ScanPackages`. -/
def ScanPackages : ScanMode := 2
/-- Flag `ScanDeep`. -/
def ScanDeep : ScanMode := 4
/-- Mode `ScanNone`. -/
def ScanNone : ScanMode := 0
/-- Mode `ScanAll`. -/
def ScanAll : ScanMode := ScanModule ||| ScanPackages
/-- Mode `ScanAllDeep`. -/
def ScanAllDeep : ScanMode := ScanModule ||| ScanPackages ||| ScanDeep
/-- Mode `ScanPackagesDeep`. -/
def ScanPackagesDeep : ScanMode := ScanPackages ||| ScanDeep

/-- The method `ScanMode.has`: `s&f != 0`. -/
def ScanMode.has (s f : ScanMode) : Bool := s &&& f != 0

/-- `NewModule(ver)`. -/
def NewModule (ver : Version) : Module :=
  { Version := ver, Deps := [], FilePath := "" }

/-- `NewModuleFromModfile(file)`; reading `file.Module.Mod` through a nil
`file.Module` panics. -/
def NewModuleFromModfile (file : File) : Except Fault Module :=
  match file.Module with
  | none => Except.error Fault.nilDereference
  | some ver =>
    Except.ok (file.Require.foldl (fun mod req => { mod with Deps := mod.Deps ++ [req] })
      (NewModule ver))

/-- A `ScannerFilter`; a filter written in Go may panic. -/
abbrev ScannerFilter := String → String → DirEntry → Except Fault Bool

/-- The default filter `ScanFilter`: `name[0] != '.' && name != "internal"`. -/
def ScanFilter (_path name : String) (_entry : DirEntry) : Except Fault Bool :=
  match byteAt name 0 with
  | Except.error f => Except.error f
  | Except.ok b => Except.ok (b != 46 && name != "internal")

/-- The `scanner` record; a nil slice is `none`. -/
structure scanner where
  startDir : String
  Modules : Option (List Module)
  Packages : Option (List Package)
deriving DecidableEq, Repr

/-- The function `isEmptyPath` of generate.go. -/
def isEmptyPath (p : String) : Bool := p = "" || p = "." || p = "./"

/-- The function `pkgImportPath` of parse.go. -/
def pkgImportPath (env : Env) (pkgPath : String) (mod : Option Module) : String :=
  match mod with
  | none => pkgPath
  | some m => if isEmptyPath pkgPath then m.Version.Path else env.pathJoin m.Version.Path pkgPath

/-- The method `scanner.scanModule(dir)`: the scanner afterwards, the Module
and the error returned. -/
def scanner.scanModule (env : Env) (s : scanner) (dir : String) :
    Except Fault (scanner × Option Module × Option Error) :=
  let path := env.Join dir "go.mod"
  match env.ReadFile path with
  | Except.error err => Except.ok (s, none, some (Trace err))
  | Except.ok data =>
    match env.ParseLax path data with
    | Except.error err =>
      if IsNotExist err then Except.ok (s, none, none)
      else Except.ok (s, none, some (Trace err))
    | Except.ok f =>
      match NewModuleFromModfile f with
      | Except.error flt => Except.error flt
      | Except.ok m =>
        let mod := { m with FilePath := path }
        Except.ok ({ s with Modules := goAppend s.Modules mod }, some mod, none)

/-- The `for _, p := range pkgs` loop of `scanner.scanPackages`, with the
unmarshaler `uw` that the iterations share. -/
def scanner.scanPackagesLoop (env : Env) (path : String) (mod : Option Module) :
    List AstPackage → scanner → unmarshaler → scanner × Option Error
  | [], s, _ => (s, none)
  | p :: rest, s, uw =>
    let importPath :=
      match mod with
      | none => p.Name
      | some _ => pkgImportPath env path mod
    match env.NewFromFiles p importPath with
    | Except.error err => (s, some (Trace err))
    | Except.ok d =>
      let pkg := NewPackage d.Name path mod
      let uw1 := unmarshaler.feed env.UnescapeString (uw.reset pkg) (env.ToHTML d.Doc)
      scanner.scanPackagesLoop env path mod rest
        { s with Packages := goAppend s.Packages uw1.pkg } uw1

/-- The method `scanner.scanPackages(dir, path, mod)`. -/
def scanner.scanPackages (env : Env) (s : scanner) (dir path : String)
    (mod : Option Module) : scanner × Option Error :=
  match env.ParseDir dir with
  | Except.error err => (s, some (Trace err))
  | Except.ok pkgs => scanner.scanPackagesLoop env path mod pkgs s unmarshaler.zero

/-- The `if mode.has(ScanPackages)` block of `scanner.scanDir`: the relative
path, then `scanPackages`. -/
def scanner.packagesStep (env : Env) (s : scanner) (dir : String) (mod : Option Module) :
    Except Fault (scanner × Option Error) :=
  let path : Except Fault String :=
    if mod.isNone && hasPrefixStr dir s.startDir then
      match sliceFrom dir (s.startDir.utf8ByteSize + 1) with
      | Except.error flt => Except.error flt
      | Except.ok rel => Except.ok (env.ToSlash rel)
    else Except.ok ""
  match path with
  | Except.error flt => Except.error flt
  | Except.ok p => Except.ok (s.scanPackages env dir p mod)

/-- The `for _, entry := range entries` loop of `scanner.scanDir`; `recur` is
the recursive call `s.scanDir(path, mode, filter)` and the third argument
the value of `scanErr`. -/
def scanner.scanEntries (env : Env)
    (recur : scanner → String → Except Fault (scanner × Option Error))
    (dir : String) (filter : ScannerFilter) :
    List DirEntry → scanner → Option Error → Except Fault (scanner × Option Error)
  | [], s, scanErr => Except.ok (s, scanErr)
  | entry :: rest, s, scanErr =>
    if !entry.IsDir then
      scanner.scanEntries env recur dir filter rest s scanErr
    else
      let name := entry.Name
      let path := env.Join dir name
      match filter path name entry with
      | Except.error flt => Except.error flt
      | Except.ok false => scanner.scanEntries env recur dir filter rest s scanErr
      | Except.ok true =>
        match recur s path with
        | Except.error flt => Except.error flt
        | Except.ok (s1, err) =>
          scanner.scanEntries env recur dir filter rest s1 (Append scanErr err)

/-- The method `scanner.scanDir(dir, mode, filter)`.  The first argument
bounds the depth of the recursion into subdirectories. -/
def scanner.scanDir (env : Env) :
    Nat → scanner → String → ScanMode → ScannerFilter →
      Except Fault (scanner × Option Error)
  | 0, _, _, _, _ => Except.error Fault.outOfFuel
  | fuel + 1, s, dir, mode, filter =>
    let step1 : Except Fault (scanner × Option Module × Option Error) :=
      if mode.has ScanModule then s.scanModule env dir else Except.ok (s, none, none)
    match step1 with
    | Except.error flt => Except.error flt
    | Except.ok (s1, _, some err) => Except.ok (s1, some err)
    | Except.ok (s1, mod, none) =>
      let step2 : Except Fault (scanner × Option Error) :=
        if mode.has ScanPackages then s1.packagesStep env dir mod else Except.ok (s1, none)
      match step2 with
      | Except.error flt => Except.error flt
      | Except.ok (s2, some err) => Except.ok (s2, some err)
      | Except.ok (s2, none) =>
        if mode.has ScanDeep then
          match env.ReadDir dir with
          | Except.error err => Except.ok (s2, some err)
          | Except.ok entries =>
            scanner.scanEntries env (fun s3 path => scanner.scanDir env fuel s3 path mode filter)
              dir filter entries s2 none
        else Except.ok (s2, none)

/-- The package-level function `ScanDir(path, mode, filter)`; a nil filter is
`none`.  The two slices returned are read from the scanner after the call
of `scanDir`, as the gc compiler orders a `return` with a call among its
operands. -/
def ScanDir (env : Env) (fuel : Nat) (path : String) (mode : ScanMode)
    (filter : Option ScannerFilter) :
    Except Fault (Option (List Module) × Option (List Package) × Option Error) :=
  if mode = ScanNone then Except.ok (none, none, none)
  else
    let flt : ScannerFilter := filter.getD ScanFilter
    let s : scanner := { startDir := path, Modules := some [], Packages := some [] }
    match s.scanDir env fuel path mode flt with
    | Except.error f => Except.error f
    | Except.ok (s1, err) => Except.ok (s1.Modules, s1.Packages, err)

/-! ## Vocabulary of the statements -/

/-- The paths that the loop of `scanDir` recurses into, in listing order: one
for every entry that is a directory and that the filter accepts. -/
def passingPaths (env : Env) (dir : String) (filter : ScannerFilter)
    (entries : List DirEntry) : List String :=
  (entries.filter (fun e => e.IsDir &&
      match filter (env.Join dir e.Name) e.Name e with
      | Except.ok true => true
      | _ => false)).map (fun e => env.Join dir e.Name)

/-- The scans of the given paths run one after the other, each on the scanner
the one before left: for each scan the scanner afterwards and the error
returned. -/
def subScans (recur : scanner → String → Except Fault (scanner × Option Error)) :
    List String → scanner → Except Fault (List (scanner × Option Error))
  | [], _ => Except.ok []
  | p :: ps, s =>
    match recur s p with
    | Except.error f => Except.error f
    | Except.ok r =>
      match subScans recur ps r.1 with
      | Except.error f => Except.error f
      | Except.ok rs => Except.ok (r :: rs)

/-- The scanner left by a run of scans that started on `s`. -/
def lastScanner (s : scanner) (rs : List (scanner × Option Error)) : scanner :=
  match rs.getLast? with
  | none => s
  | some r => r.1

/-- The errors of a run of scans combined by `errors.Append`, starting from
`scanErr`. -/
def appendAll (scanErr : Option Error) (rs : List (scanner × Option Error)) : Option Error :=
  rs.foldl (fun acc r => Append acc r.2) scanErr

/-- Scanner `t` holds everything scanner `s` holds, in the same order and
before anything else, and has the same start directory. -/
def scanner.grows (s t : scanner) : Prop :=
  t.startDir = s.startDir ∧
  s.Modules.getD [] <+: t.Modules.getD [] ∧
  s.Packages.getD [] <+: t.Packages.getD []

/-- Whether a scanner grows into another can be computed. -/
instance scanner.decidableGrows (s t : scanner) : Decidable (s.grows t) := by
  unfold scanner.grows
  infer_instance

/-! ## A small file tree for concrete evaluations -/

/-- The manifest text of the example module. -/
def demoManifest : String := "module example.com/m"

/-- A file tree: `/repo` holds a manifest and the package `foo`; it has the
subdirectories `a` (no manifest), `b` (a manifest), `.git` and `internal`,
and the file `README.md`.  The two joins put a slash between their
operands, which is what `filepath.Join` and `path.Join` do on the clean,
non-empty operands met in this tree. -/
def demoEnv : Env where
  Join := fun a b => a ++ "/" ++ b
  ToSlash := fun p => p
  pathJoin := fun a b => a ++ "/" ++ b
  ReadFile := fun path =>
    if path = "/repo/go.mod" then Except.ok demoManifest
    else if path = "/repo/b/go.mod" then Except.ok "module example.com/b"
    else Except.error (Error.notExist path)
  ParseLax := fun _ data =>
    if data = demoManifest then
      Except.ok { Module := some { Path := "example.com/m", Version := "v1.0.0" },
                  Require := [{ Path := "example.com/dep", Version := "v0.1.0" }] }
    else if data = "module example.com/b" then
      Except.ok { Module := some { Path := "example.com/b", Version := "" }, Require := [] }
    else Except.error (Error.other "malformed go.mod")
  ReadDir := fun dir =>
    if dir = "/repo" then
      Except.ok [{ Name := ".git", IsDir := true }, { Name := "README.md", IsDir := false },
                 { Name := "a", IsDir := true }, { Name := "b", IsDir := true },
                 { Name := "internal", IsDir := true }]
    else if dir = "/repo/a" ∨ dir = "/repo/b" then Except.ok []
    else Except.error (Error.notExist dir)
  ParseDir := fun dir =>
    if dir = "/repo" then Except.ok [{ Name := "foo", Files := ["foo.go"] }]
    else Except.ok []
  NewFromFiles := fun p _ => Except.ok { Name := p.Name, Doc := "Package foo does X." }
  ToHTML := fun text => ["<p>\n", text, "</p>\n"]
  UnescapeString := unescapeBasic

/-- The same tree with `b` listed before `a`. -/
def demoEnvRev : Env :=
  { demoEnv with
    ReadDir := fun dir =>
      if dir = "/repo" then
        Except.ok [{ Name := "b", IsDir := true }, { Name := "a", IsDir := true }]
      else if dir = "/repo/a" ∨ dir = "/repo/b" then Except.ok []
      else Except.error (Error.notExist dir) }

/-- A scanner on `/repo` with both collections initialised and empty. -/
def demoScanner : scanner := { startDir := "/repo", Modules := some [], Packages := some [] }

/-- The Module that a scan registers for `/repo`. -/
def demoRootModule : Module :=
  { Version := { Path := "example.com/m", Version := "v1.0.0" },
    Deps := [{ Path := "example.com/dep", Version := "v0.1.0" }],
    FilePath := "/repo/go.mod" }

/-- The Module that a scan registers for `/repo/b`. -/
def demoSubModule : Module :=
  { Version := { Path := "example.com/b", Version := "" }, Deps := [],
    FilePath := "/repo/b/go.mod" }

/-- The Package that a scan registers for `/repo`: its one paragraph is left
in the pending Section, so it has no Sections. -/
def demoPackage : Package :=
  { Name := "foo", Path := "", Module := some demoRootModule, Sections := [] }

/-! ## parse.go: accessors of the Package -/

/-- The method `Block.String()` of both implementations: the text held. -/
def Block.String (b : Block) : String := b.text

/-- The method `Package.ImportPath()`. -/
def Package.ImportPath (env : Env) (p : Package) : String :=
  pkgImportPath env p.Path p.Module

/-- The method `Package.Synopsis()`: `doc.Synopsis` (the parameter `synopsis`)
of the text of `p.Sections[0].Blocks[0]`; either index expression panics
when the index is out of range. -/
def Package.Synopsis (synopsis : String → String) (p : Package) : Except Fault String :=
  match p.Sections with
  | [] => Except.error Fault.indexOutOfRange
  | sec :: _ =>
    match sec.Blocks with
    | [] => Except.error Fault.indexOutOfRange
    | b :: _ => Except.ok (synopsis b.String)

/-! ## scan.go and generate.go: initialisation and the Generator -/

/-- The method `scanner.init()`: the scanner afterwards and the result. -/
def scanner.init (s : scanner) : scanner × Bool :=
  if s.Modules.isSome || s.Packages.isSome then (s, false)
  else ({ s with Modules := some [], Packages := some [] }, true)

/-- A parsed `*template.Template`, known by the file it was parsed from. -/
structure Template where
  file : String
deriving DecidableEq, Repr

/-- The functions of other packages that the Generator calls, and the part
of `printer` that `Generate` relies on. -/
structure GenEnv where
  /-- The function `filepath.IsAbs(path)`. -/
  IsAbs : String → Bool
  /-- The function `filepath.Clean(path)`. -/
  Clean : String → String
  /-- The method `(*template.Template).Lookup(name)`. -/
  Lookup : Template → String → Option Template
  /-- The method `(*template.Template).ParseFiles(path)`: template and error. -/
  ParseFilesOn : Template → String → Option Template × Option Error
  /-- The function `template.ParseFiles(path)`. -/
  ParseFiles : String → Except Error Template
  /-- The call `t.Execute(wr, &printer{pkgs: pkgs})`, as the error returned. -/
  Execute : Template → Option (List Package) → Option Error

/-- The `Generator` record; a nil `filter` is `none`. -/
structure Generator where
  scanner : scanner
  tmpl : Option Template
  filter : Option ScannerFilter

/-- A `ScannerFilter` interface value as `scanDir` calls it: calling
`FilterScan` on a nil interface panics. -/
def callFilter (filter : Option ScannerFilter) : ScannerFilter :=
  match filter with
  | some f => f
  | none => fun _ _ _ => Except.error Fault.nilDereference

/-- `errors.Trace(err)` for an `err` that may be nil. -/
def TraceOpt (err : Option Error) : Option Error := err.map Trace

/-- The method `Generator.AbsPath(path)`. -/
def Generator.AbsPath (env : Env) (genv : GenEnv) (g : Generator) (path : String) : String :=
  if isEmptyPath path then g.scanner.startDir
  else if !genv.IsAbs path then env.Join g.scanner.startDir path
  else genv.Clean path

/-- The method `Generator.ScanDir(dir, mode, filter)`: the Generator
afterwards and the error returned. -/
def Generator.ScanDir (env : Env) (genv : GenEnv) (fuel : Nat) (g : Generator)
    (dir : String) (mode : ScanMode) (filter : Option ScannerFilter) :
    Except Fault (Generator × Option Error) :=
  if mode = ScanNone then Except.ok (g, none)
  else
    let flt : Option ScannerFilter :=
      match filter with
      | none => g.filter
      | some f => some f
    let g1 : Generator := { g with scanner := g.scanner.init.1 }
    match g1.scanner.scanDir env fuel (g1.AbsPath env genv dir) mode (callFilter flt) with
    | Except.error f => Except.error f
    | Except.ok (s1, err) => Except.ok ({ g1 with scanner := s1 }, err)

/-- The method `Generator.template(path, name)`: the Generator afterwards,
the template and the error. -/
def Generator.template (genv : GenEnv) (g : Generator) (path name : String) :
    Generator × Option Template × Option Error :=
  match g.tmpl with
  | some t =>
    match genv.Lookup t name with
    | some found => (g, some found, none)
    | none =>
      let r := genv.ParseFilesOn t path
      (g, r.1, TraceOpt r.2)
  | none =>
    match genv.ParseFiles path with
    | Except.error err => (g, none, some (Trace err))
    | Except.ok res => ({ g with tmpl := some res }, some res, none)

/-- The `if g.scanner.init()` block that opens `Generator.Generate`: the
Generator afterwards and the error of the scan, if one ran. -/
def Generator.generateScan (env : Env) (fuel : Nat) (g : Generator) :
    Except Fault (Generator × Option Error) :=
  let r := g.scanner.init
  if r.2 then
    match r.1.scanDir env fuel r.1.startDir ScanAllDeep (callFilter g.filter) with
    | Except.error f => Except.error f
    | Except.ok (s1, err) => Except.ok ({ g with scanner := s1 }, err)
  else Except.ok ({ g with scanner := r.1 }, none)

/-- The method `Generator.Generate(tmplFile, wr)`; calling `Execute` through
a nil template panics. -/
def Generator.Generate (env : Env) (genv : GenEnv) (fuel : Nat) (g : Generator)
    (tmplFile : String) : Except Fault (Generator × Option Error) :=
  match g.generateScan env fuel with
  | Except.error f => Except.error f
  | Except.ok (g1, some err) => Except.ok (g1, some err)
  | Except.ok (g1, none) =>
    match g1.template genv (g1.AbsPath env genv tmplFile) tmplFile with
    | (g2, _, some err) => Except.ok (g2, some err)
    | (_, none, none) => Except.error Fault.nilDereference
    | (g2, some t, none) => Except.ok (g2, TraceOpt (genv.Execute t g2.scanner.Packages))

/-! ## Vocabulary of the statements on streams -/

/-- The state that `Write` leaves, as a function of the state before and of
the fragment alone. -/
def opAfter (o : op) (s : String) : op :=
  if s = "<h3 id=\"" then op.opId
  else if s = "<p>\n" then op.opPara
  else if s = "</p>\n" then o
  else if s = "<pre>" then op.opPre
  else if s = "</pre>\n" then o
  else
    match o with
    | op.opId => if s = "\">" then op.opHead else op.opId
    | other => other

/-- Whether `Write` in state `o` consumes the fragment as a section id: the
state is opId and the fragment is neither a control marker nor `">`. -/
def consumedAsId (o : op) (s : String) : Bool :=
  decide (o = op.opId) && !isControl s && decide (s ≠ "\">")

/-- The fragments of a stream consumed as section ids, in order, when the
stream is received from state `o` on. -/
def idFragments : op → List String → List String
  | _, [] => []
  | o, s :: rest =>
    if consumedAsId o s then s :: idFragments (opAfter o s) rest
    else idFragments (opAfter o s) rest

/-- A headed section as the renderer emits it: the heading group of the id
and heading text of `sec`, then its blocks. -/
def sectionFrags (sec : Section) : List String :=
  ["<h3 id=\"", sec.Id, "\">", sec.Heading, "</h3>\n"] ++ sec.Blocks.flatMap blockFrags

/-- A section whose id, heading and block texts meet the side conditions
under which the renderer stream rebuilds it: no control fragment among
them, the id not `">`, the heading not the heading close, no entity in
heading and texts. -/
def Section.plain (unescape : String → String) (sec : Section) : Prop :=
  isControl sec.Id = false ∧ sec.Id ≠ "\">" ∧
  isControl sec.Heading = false ∧ sec.Heading ≠ "</h3>\n" ∧
  unescape sec.Heading = sec.Heading ∧
  ∀ b ∈ sec.Blocks, isControl b.text = false ∧ unescape b.text = b.text

/-- Whether `init` has run on the scanner or a collection was set. -/
def scanner.initialised (s : scanner) : Bool :=
  s.Modules.isSome || s.Packages.isSome

/-- A Generator on `/repo` as `New` makes it: nothing scanned, the default
filter. -/
def demoGenerator : Generator :=
  { scanner := { startDir := "/repo", Modules := none, Packages := none },
    tmpl := none,
    filter := some ScanFilter }

/-- Path functions and template engine for the example tree: every template
file parses and executes without error. -/
def demoGenEnv : GenEnv where
  IsAbs := fun p => p.data.head? = some '/'
  Clean := fun p => p
  Lookup := fun _ _ => none
  ParseFilesOn := fun _ path => (some { file := path }, none)
  ParseFiles := fun path => Except.ok { file := path }
  Execute := fun _ _ => none

/-- One call on a scanner: `init()` or `scanDir(dir, mode, filter)`. -/
inductive scannerCall where
  | init
  | scanDir (dir : String) (mode : ScanMode) (filter : ScannerFilter)

/-- A sequence of calls made one after the other on one scanner: the scanner
afterwards and the results of the `init` calls, in order. -/
def runCalls (env : Env) (fuel : Nat) :
    List scannerCall → scanner → Except Fault (scanner × List Bool)
  | [], s => Except.ok (s, [])
  | scannerCall.init :: rest, s =>
    match runCalls env fuel rest s.init.1 with
    | Except.error f => Except.error f
    | Except.ok (t, bs) => Except.ok (t, s.init.2 :: bs)
  | scannerCall.scanDir dir mode filter :: rest, s =>
    match s.scanDir env fuel dir mode filter with
    | Except.error f => Except.error f
    | Except.ok (s1, _) => runCalls env fuel rest s1

/-- The example tree with an empty `go.mod` in `/repo/c`: the file is read
and parsed without error and declares no module. -/
def bareManifestEnv : Env :=
  { demoEnv with
    ReadFile := fun path =>
      if path = "/repo/c/go.mod" then Except.ok "" else demoEnv.ReadFile path
    ParseLax := fun path data =>
      if data = "" then Except.ok { Module := none, Require := [] }
      else demoEnv.ParseLax path data }

/-! ## Lemmas on the unmarshaler -/

theorem str_nil_append (s : String) : "" ++ s = s := by
  apply String.ext
  simp

theorem concatAll_append_assoc (l x : String) (xs : List String) :
    l ++ x ++ concatAll xs = l ++ concatAll (x :: xs) := by
  simp [concatAll, String.append_assoc]

theorem Write_open_para (unescape : String → String) (u : unmarshaler) :
    unmarshaler.Write unescape u "<p>\n" = { u with op := op.opPara } := by
  simp [unmarshaler.Write]

theorem Write_open_pre (unescape : String → String) (u : unmarshaler) :
    unmarshaler.Write unescape u "<pre>" = { u with op := op.opPre } := by
  simp [unmarshaler.Write]

theorem Write_close_para (unescape : String → String) (u : unmarshaler) :
    unmarshaler.Write unescape u "</p>\n" =
      { u with cur := { u.cur with Blocks := u.cur.Blocks ++ [Block.ParaBlock u.line] },
               line := "" } := by
  simp [unmarshaler.Write]

theorem Write_close_pre (unescape : String → String) (u : unmarshaler) :
    unmarshaler.Write unescape u "</pre>\n" =
      { u with cur := { u.cur with Blocks := u.cur.Blocks ++ [Block.PreBlock u.line] },
               line := "" } := by
  simp [unmarshaler.Write]

theorem Write_text_para (unescape : String → String) (u : unmarshaler) (s : String)
    (hs : isControl s = false) (hop : u.op = op.opPara) :
    unmarshaler.Write unescape u s = { u with line := u.line ++ unescape s } := by
  simp only [isControl, Bool.or_eq_false_iff, decide_eq_false_iff_not] at hs
  obtain ⟨⟨⟨⟨h1, h2⟩, h3⟩, h4⟩, h5⟩ := hs
  simp [unmarshaler.Write, h1, h2, h3, h4, h5, hop]

theorem Write_text_pre (unescape : String → String) (u : unmarshaler) (s : String)
    (hs : isControl s = false) (hop : u.op = op.opPre) :
    unmarshaler.Write unescape u s = { u with line := u.line ++ unescape s } := by
  simp only [isControl, Bool.or_eq_false_iff, decide_eq_false_iff_not] at hs
  obtain ⟨⟨⟨⟨h1, h2⟩, h3⟩, h4⟩, h5⟩ := hs
  simp [unmarshaler.Write, h1, h2, h3, h4, h5, hop]

theorem feed_nil (unescape : String → String) (u : unmarshaler) :
    unmarshaler.feed unescape u [] = u := rfl

theorem feed_cons (unescape : String → String) (u : unmarshaler) (f : String)
    (fs : List String) :
    unmarshaler.feed unescape u (f :: fs) =
      unmarshaler.feed unescape (unmarshaler.Write unescape u f) fs := rfl

theorem feed_append (unescape : String → String) (u : unmarshaler) (fs gs : List String) :
    unmarshaler.feed unescape u (fs ++ gs) =
      unmarshaler.feed unescape (unmarshaler.feed unescape u fs) gs := by
  simp [unmarshaler.feed, List.foldl_append]

/-- Text fragments received in state `opPara` or `opPre` only grow the line
buffer, by their unescaped text in order. -/
theorem feed_text (unescape : String → String) (fs : List String) :
    ∀ u : unmarshaler, (∀ f ∈ fs, isControl f = false) →
      (u.op = op.opPara ∨ u.op = op.opPre) →
      unmarshaler.feed unescape u fs =
        { u with line := u.line ++ concatAll (fs.map unescape) } := by
  induction fs with
  | nil =>
    intro u _ _
    simp [feed_nil, concatAll]
  | cons f fs ih =>
    intro u hfs hop
    have hf : isControl f = false := hfs f (List.mem_cons_self f fs)
    have hrest : ∀ g ∈ fs, isControl g = false := fun g hg => hfs g (List.mem_cons_of_mem f hg)
    have hW : unmarshaler.Write unescape u f = { u with line := u.line ++ unescape f } := by
      rcases hop with hop | hop
      · exact Write_text_para unescape u f hf hop
      · exact Write_text_pre unescape u f hf hop
    rw [feed_cons, hW, ih _ hrest (by simpa using hop)]
    simp [concatAll, String.append_assoc]

/-- One block of the renderer, received with an empty line buffer and a text
that is no control fragment and holds no entity, is appended as it stands. -/
theorem feed_blockFrags (unescape : String → String) (b : Block) (u : unmarshaler)
    (hline : u.line = "") (hb : isControl b.text = false) (hu : unescape b.text = b.text) :
    ∃ o, unmarshaler.feed unescape u (blockFrags b) =
      { u with cur := { u.cur with Blocks := u.cur.Blocks ++ [b] }, op := o, line := "" } := by
  cases b with
  | ParaBlock t =>
    refine ⟨op.opPara, ?_⟩
    simp only [Block.text] at hb hu
    simp only [blockFrags, feed_cons, feed_nil, Write_open_para]
    rw [Write_text_para unescape _ t hb rfl, Write_close_para]
    simp [hline, hu, str_nil_append]
  | PreBlock t =>
    refine ⟨op.opPre, ?_⟩
    simp only [Block.text] at hb hu
    simp only [blockFrags, feed_cons, feed_nil, Write_open_pre]
    rw [Write_text_pre unescape _ t hb rfl, Write_close_pre]
    simp [hline, hu, str_nil_append]

/-- A run of renderer blocks, received with an empty line buffer, appends the
blocks to the pending Section, leaves the Package alone and ends with an
empty line buffer. -/
theorem feed_blocks (unescape : String → String) (bs : List Block) :
    ∀ u : unmarshaler, u.line = "" →
      (∀ b ∈ bs, isControl b.text = false ∧ unescape b.text = b.text) →
      (unmarshaler.feed unescape u (bs.flatMap blockFrags)).pkg = u.pkg ∧
      (unmarshaler.feed unescape u (bs.flatMap blockFrags)).cur =
        { u.cur with Blocks := u.cur.Blocks ++ bs } ∧
      (unmarshaler.feed unescape u (bs.flatMap blockFrags)).line = "" := by
  induction bs with
  | nil =>
    intro u hline _
    simp [feed_nil, hline]
  | cons b bs ih =>
    intro u hline hbs
    have hb := hbs b (List.mem_cons_self b bs)
    have hrest : ∀ c ∈ bs, isControl c.text = false ∧ unescape c.text = c.text :=
      fun c hc => hbs c (List.mem_cons_of_mem b hc)
    obtain ⟨o, ho⟩ := feed_blockFrags unescape b u hline hb.1 hb.2
    rw [List.flatMap_cons, feed_append, ho]
    obtain ⟨h1, h2, h3⟩ :=
      ih { u with cur := { u.cur with Blocks := u.cur.Blocks ++ [b] }, op := o, line := "" }
        rfl hrest
    refine ⟨h1, ?_, h3⟩
    rw [h2]
    simp

theorem Write_tree_congr (unescape : String → String) (u v : unmarshaler) (s : String)
    (h : u.tree = v.tree) :
    (unmarshaler.Write unescape u s).tree = (unmarshaler.Write unescape v s).tree := by
  rcases u with ⟨up, uc, uo, ul⟩
  rcases v with ⟨vp, vc, vo, vl⟩
  simp only [unmarshaler.tree, Prod.mk.injEq] at h
  obtain ⟨h1, h2, h3, h4⟩ := h
  subst h2 h3 h4
  cases uo <;> simp only [unmarshaler.Write, unmarshaler.tree] <;> split_ifs <;> simp [h1]

theorem feed_tree_congr (unescape : String → String) (frags : List String) :
    ∀ u v : unmarshaler, u.tree = v.tree →
      (unmarshaler.feed unescape u frags).tree = (unmarshaler.feed unescape v frags).tree := by
  induction frags with
  | nil => intro u v h; exact h
  | cons f fs ih =>
    intro u v h
    rw [feed_cons, feed_cons]
    exact ih _ _ (Write_tree_congr unescape u v f h)

/-- The heading part of a section as the renderer emits it, received right
after `reset`: the placeholder Section is stored and the Section pending
afterwards carries the id and the heading. -/
theorem feed_heading_after_reset (unescape : String → String) (u0 : unmarshaler)
    (pkg : Package) (i h : String)
    (hi : isControl i = false) (hi2 : i ≠ "\">")
    (hh : isControl h = false) (hh2 : h ≠ "</h3>\n") (hhu : unescape h = h) :
    unmarshaler.feed unescape (u0.reset pkg) ["<h3 id=\"", i, "\">", h, "</h3>\n"] =
      { pkg := { pkg with Sections := pkg.Sections ++ [NewSection ""] },
        cur := { Id := i, Heading := h, Blocks := [] },
        op := op.opHead,
        line := "" } := by
  simp only [isControl, Bool.or_eq_false_iff, decide_eq_false_iff_not] at hi hh
  obtain ⟨⟨⟨⟨i1, i2⟩, i3⟩, i4⟩, i5⟩ := hi
  obtain ⟨⟨⟨⟨h1, h2⟩, h3⟩, h4⟩, h5⟩ := hh
  simp [unmarshaler.feed, unmarshaler.Write, unmarshaler.reset, NewSection,
    i1, i2, i3, i4, i5, hi2, h1, h2, h3, h4, h5, hh2, hhu, str_nil_append]

/-! ## Claims on the unmarshaler -/

/-- The stream of one heading (id `i`, text `h`) and the blocks `bs`, fed
after `reset`: the state it leaves. -/
theorem feed_headed_stream (unescape : String → String) (u0 : unmarshaler)
    (pkg : Package) (i h : String) (bs : List Block)
    (hi : isControl i = false) (hi2 : i ≠ "\">")
    (hh : isControl h = false) (hh2 : h ≠ "</h3>\n") (hhu : unescape h = h)
    (hbs : ∀ b ∈ bs, isControl b.text = false ∧ unescape b.text = b.text) :
    (unmarshaler.feed unescape (u0.reset pkg)
        (["<h3 id=\"", i, "\">", h, "</h3>\n"] ++ bs.flatMap blockFrags)).pkg.Sections
      = pkg.Sections ++ [{ Id := "", Heading := "", Blocks := [] }] ∧
    (unmarshaler.feed unescape (u0.reset pkg)
        (["<h3 id=\"", i, "\">", h, "</h3>\n"] ++ bs.flatMap blockFrags)).cur
      = { Id := i, Heading := h, Blocks := bs } := by
  rw [feed_append, feed_heading_after_reset unescape u0 _ i h hi hi2 hh hh2 hhu]
  obtain ⟨h1, h2, _⟩ := feed_blocks unescape bs
    { pkg := { pkg with Sections := pkg.Sections ++ [NewSection ""] },
      cur := { Id := i, Heading := h, Blocks := [] },
      op := op.opHead,
      line := "" } rfl hbs
  rw [h1, h2]
  simp [NewSection]

/-- C2 as stated fails: for the heading "Overview" with id "intro", one
paragraph and one preformatted block, the Package ends with one Section
whose Heading is empty and which has no Blocks; it does not end with one
Section of Heading "Overview" holding the two Blocks. -/
theorem C2_one_headed_section_counterexample :
    (unmarshaler.feed unescapeBasic (unmarshaler.zero.reset (NewPackage "foo" "" none))
        ["<h3 id=\"", "intro", "\">", "Overview", "</h3>\n",
         "<p>\n", "First.", "</p>\n", "<pre>", "code", "</pre>\n"]).pkg.Sections
      = [{ Id := "", Heading := "", Blocks := [] }] ∧
    ¬ ∃ sec : Section,
      (unmarshaler.feed unescapeBasic (unmarshaler.zero.reset (NewPackage "foo" "" none))
        ["<h3 id=\"", "intro", "\">", "Overview", "</h3>\n",
         "<p>\n", "First.", "</p>\n", "<pre>", "code", "</pre>\n"]).pkg.Sections = [sec] ∧
      sec.Heading = "Overview" ∧
      sec.Blocks = [Block.ParaBlock "First.", Block.PreBlock "code"] := by
  have hs : (unmarshaler.feed unescapeBasic
      (unmarshaler.zero.reset (NewPackage "foo" "" none))
      ["<h3 id=\"", "intro", "\">", "Overview", "</h3>\n",
       "<p>\n", "First.", "</p>\n", "<pre>", "code", "</pre>\n"]).pkg.Sections
      = [{ Id := "", Heading := "", Blocks := [] }] := by decide
  refine ⟨hs, ?_⟩
  rintro ⟨sec, h1, h2, _⟩
  rw [hs] at h1
  simp only [List.cons.injEq, and_true] at h1
  rw [← h1] at h2
  revert h2
  decide

/-- C2, amended: for the stream of one heading (id `i`, text `h`) and the
blocks `bs`, fed after `reset` on a new Package, the first Section of the
Package is the placeholder that `reset` made (empty Id, empty Heading, no
Blocks), and the Section built from the stream, the pending Section of the
unmarshaler, has Id `i`, Heading `h` and exactly the blocks `bs`, in
emission order and with their variants. -/
theorem C2_stream_builds_headed_section (unescape : String → String) (u0 : unmarshaler)
    (name path : String) (mod : Option Module) (i h : String) (bs : List Block)
    (hi : isControl i = false) (hi2 : i ≠ "\">")
    (hh : isControl h = false) (hh2 : h ≠ "</h3>\n") (hhu : unescape h = h)
    (hbs : ∀ b ∈ bs, isControl b.text = false ∧ unescape b.text = b.text) :
    (unmarshaler.feed unescape (u0.reset (NewPackage name path mod))
        (["<h3 id=\"", i, "\">", h, "</h3>\n"] ++ bs.flatMap blockFrags)).pkg.Sections.head?
      = some { Id := "", Heading := "", Blocks := [] } ∧
    (unmarshaler.feed unescape (u0.reset (NewPackage name path mod))
        (["<h3 id=\"", i, "\">", h, "</h3>\n"] ++ bs.flatMap blockFrags)).cur
      = { Id := i, Heading := h, Blocks := bs } := by
  obtain ⟨h1, h2⟩ := feed_headed_stream unescape u0 (NewPackage name path mod) i h bs
    hi hi2 hh hh2 hhu hbs
  refine ⟨?_, h2⟩
  rw [h1]
  simp [NewPackage]

/-- C2 amended, at the heading "Overview" with id "intro", one paragraph and
one preformatted block. -/
theorem C2_stream_builds_headed_section_witness :
    (isControl "intro" = false ∧ "intro" ≠ "\">" ∧ isControl "Overview" = false ∧
      "Overview" ≠ "</h3>\n" ∧ unescapeBasic "Overview" = "Overview") ∧
    (unmarshaler.feed unescapeBasic (unmarshaler.zero.reset (NewPackage "foo" "" none))
        (["<h3 id=\"", "intro", "\">", "Overview", "</h3>\n"] ++
          [Block.ParaBlock "First.", Block.PreBlock "code"].flatMap blockFrags)).cur
      = { Id := "intro", Heading := "Overview",
          Blocks := [Block.ParaBlock "First.", Block.PreBlock "code"] } :=
  ⟨by decide,
   (C2_stream_builds_headed_section unescapeBasic unmarshaler.zero "foo" "" none
     "intro" "Overview" [Block.ParaBlock "First.", Block.PreBlock "code"]
     (by decide) (by decide) (by decide) (by decide) (by decide) (by decide)).2⟩

/-- C3 as stated fails: after the stream of the scenario the one Section of
the Package has the empty Id and no Blocks; it is not a Section with Id
"intro" holding the paragraph. -/
theorem C3_intro_section_counterexample :
    (unmarshaler.feed unescapeBasic (unmarshaler.zero.reset (NewPackage "foo" "" none))
        ["<h3 id=\"", "intro", "\">", "<p>\n", "Package foo does X.", "</p>\n"]).pkg.Sections
      = [{ Id := "", Heading := "", Blocks := [] }] ∧
    ¬ ∃ sec : Section,
      (unmarshaler.feed unescapeBasic (unmarshaler.zero.reset (NewPackage "foo" "" none))
        ["<h3 id=\"", "intro", "\">", "<p>\n", "Package foo does X.", "</p>\n"]).pkg.Sections
        = [sec] ∧
      sec.Id = "intro" ∧ sec.Blocks = [Block.ParaBlock "Package foo does X."] := by
  have hs : (unmarshaler.feed unescapeBasic
      (unmarshaler.zero.reset (NewPackage "foo" "" none))
      ["<h3 id=\"", "intro", "\">", "<p>\n", "Package foo does X.", "</p>\n"]).pkg.Sections
      = [{ Id := "", Heading := "", Blocks := [] }] := by decide
  refine ⟨hs, ?_⟩
  rintro ⟨sec, h1, h2, _⟩
  rw [hs] at h1
  simp only [List.cons.injEq, and_true] at h1
  rw [← h1] at h2
  revert h2
  decide

/-- C3, amended: after the stream of the scenario, fed after `reset` on the
empty Package foo, the first Section of the Package is the placeholder that
`reset` made (empty Id, no Blocks), and the Section built from the stream,
the pending Section of the unmarshaler, has Id "intro" and the one Block
ParaBlock("Package foo does X."). -/
theorem C3_stream_builds_intro_section (unescape : String → String) (u0 : unmarshaler)
    (hu : unescape "Package foo does X." = "Package foo does X.") :
    (unmarshaler.feed unescape (u0.reset (NewPackage "foo" "" none))
        ["<h3 id=\"", "intro", "\">", "<p>\n", "Package foo does X.",
         "</p>\n"]).pkg.Sections.head?
      = some { Id := "", Heading := "", Blocks := [] } ∧
    (unmarshaler.feed unescape (u0.reset (NewPackage "foo" "" none))
        ["<h3 id=\"", "intro", "\">", "<p>\n", "Package foo does X.", "</p>\n"]).cur
      = { Id := "intro", Heading := "",
          Blocks := [Block.ParaBlock "Package foo does X."] } := by
  simp [unmarshaler.feed, unmarshaler.Write, unmarshaler.reset, NewSection, NewPackage,
    str_nil_append, hu]

/-- C3 amended, with the entity decoder in the place of
`html.UnescapeString`. -/
theorem C3_stream_builds_intro_section_witness :
    unescapeBasic "Package foo does X." = "Package foo does X." ∧
    (unmarshaler.feed unescapeBasic (unmarshaler.zero.reset (NewPackage "foo" "" none))
        ["<h3 id=\"", "intro", "\">", "<p>\n", "Package foo does X.", "</p>\n"]).cur
      = { Id := "intro", Heading := "",
          Blocks := [Block.ParaBlock "Package foo does X."] } :=
  ⟨by decide,
   (C3_stream_builds_intro_section unescapeBasic unmarshaler.zero (by decide)).2⟩

/-- C7 as stated fails: in the state reached by [`<p>\n`, "a"] the opening
marker `<p>\n` leaves the line buffer "a", not empty, and the Block flushed
by the following `</p>\n` of the stream [`<p>\n`, "a", `<p>\n`, "b",
`</p>\n`] is ParaBlock("ab"), not ParaBlock("b"). -/
theorem C7_open_marker_keeps_buffer_counterexample :
    (unmarshaler.Write unescapeBasic
        (unmarshaler.feed unescapeBasic (unmarshaler.zero.reset (NewPackage "foo" "" none))
          ["<p>\n", "a"]) "<p>\n").line = "a" ∧
    (unmarshaler.Write unescapeBasic
        (unmarshaler.feed unescapeBasic (unmarshaler.zero.reset (NewPackage "foo" "" none))
          ["<p>\n", "a"]) "<p>\n").line ≠ "" ∧
    (unmarshaler.feed unescapeBasic (unmarshaler.zero.reset (NewPackage "foo" "" none))
        ["<p>\n", "a", "<p>\n", "b", "</p>\n"]).cur.Blocks = [Block.ParaBlock "ab"] ∧
    (unmarshaler.feed unescapeBasic (unmarshaler.zero.reset (NewPackage "foo" "" none))
        ["<p>\n", "a", "<p>\n", "b", "</p>\n"]).cur.Blocks ≠ [Block.ParaBlock "b"] := by
  decide

/-- C7, amended: in every state `Write` of `<p>\n` (of `<pre>`) only sets the
state to opPara (opPre); Package, pending Section and line buffer stay as
they are, so the buffer is empty afterwards exactly when it was empty
before.  The Block flushed by the next closing marker holds the buffer as
it stood at the opening marker followed by the unescaped text received
after it. -/
theorem C7_open_marker_sets_state_only (unescape : String → String) (u : unmarshaler)
    (fs : List String) (hfs : ∀ f ∈ fs, isControl f = false) :
    unmarshaler.Write unescape u "<p>\n" = { u with op := op.opPara } ∧
    unmarshaler.Write unescape u "<pre>" = { u with op := op.opPre } ∧
    ((unmarshaler.Write unescape u "<p>\n").line = "" ↔ u.line = "") ∧
    ((unmarshaler.Write unescape u "<pre>").line = "" ↔ u.line = "") ∧
    (unmarshaler.feed unescape u ("<p>\n" :: (fs ++ ["</p>\n"]))).cur.Blocks =
      u.cur.Blocks ++ [Block.ParaBlock (u.line ++ concatAll (fs.map unescape))] ∧
    (unmarshaler.feed unescape u ("<pre>" :: (fs ++ ["</pre>\n"]))).cur.Blocks =
      u.cur.Blocks ++ [Block.PreBlock (u.line ++ concatAll (fs.map unescape))] := by
  refine ⟨Write_open_para unescape u, Write_open_pre unescape u, ?_, ?_, ?_, ?_⟩
  · rw [Write_open_para]
  · rw [Write_open_pre]
  · rw [feed_cons, feed_append, Write_open_para,
      feed_text unescape fs _ hfs (Or.inl rfl), feed_cons, feed_nil, Write_close_para]
  · rw [feed_cons, feed_append, Write_open_pre,
      feed_text unescape fs _ hfs (Or.inr rfl), feed_cons, feed_nil, Write_close_pre]

/-- C7 amended, at the stream of the claim: the second `<p>\n` arrives with
"a" buffered and the Block flushed is ParaBlock("ab"). -/
theorem C7_open_marker_sets_state_only_witness :
    (∀ f ∈ ["b"], isControl f = false) ∧
    (unmarshaler.feed unescapeBasic
        (unmarshaler.feed unescapeBasic (unmarshaler.zero.reset (NewPackage "foo" "" none))
          ["<p>\n", "a"])
        ("<p>\n" :: (["b"] ++ ["</p>\n"]))).cur.Blocks = [Block.ParaBlock "ab"] :=
  ⟨by decide,
   (C7_open_marker_sets_state_only unescapeBasic
      (unmarshaler.feed unescapeBasic (unmarshaler.zero.reset (NewPackage "foo" "" none))
        ["<p>\n", "a"]) ["b"] (by decide)).2.2.2.2.1⟩

/-- C8: after `reset` on any Package, the stream `<p>\n`, f1..fk, `</p>\n`
with no control marker among the fi leaves the Package as it was and the
pending Section with exactly one Block, ParaBlock of the concatenation of
the unescaped fi; likewise `<pre>`, f1..fk, `</pre>\n` with PreBlock. -/
theorem C8_block_text_is_unescaped_concatenation (unescape : String → String)
    (u0 : unmarshaler) (pkg : Package) (fs : List String)
    (hfs : ∀ f ∈ fs, isControl f = false) :
    unmarshaler.feed unescape (u0.reset pkg) ("<p>\n" :: (fs ++ ["</p>\n"])) =
      { pkg := pkg,
        cur := { Id := "", Heading := "",
                 Blocks := [Block.ParaBlock (concatAll (fs.map unescape))] },
        op := op.opPara,
        line := "" } ∧
    unmarshaler.feed unescape (u0.reset pkg) ("<pre>" :: (fs ++ ["</pre>\n"])) =
      { pkg := pkg,
        cur := { Id := "", Heading := "",
                 Blocks := [Block.PreBlock (concatAll (fs.map unescape))] },
        op := op.opPre,
        line := "" } := by
  constructor
  · rw [feed_cons, feed_append, Write_open_para,
      feed_text unescape fs _ hfs (Or.inl rfl), feed_cons, feed_nil, Write_close_para]
    simp [unmarshaler.reset, NewSection, str_nil_append]
  · rw [feed_cons, feed_append, Write_open_pre,
      feed_text unescape fs _ hfs (Or.inr rfl), feed_cons, feed_nil, Write_close_pre]
    simp [unmarshaler.reset, NewSection, str_nil_append]

/-- C8 at the fragment "a &amp; b": the stored text is "a & b". -/
theorem C8_block_text_is_unescaped_concatenation_witness :
    (∀ f ∈ ["a &amp; b"], isControl f = false) ∧
    (unmarshaler.feed unescapeBasic (unmarshaler.zero.reset (NewPackage "foo" "" none))
        ("<p>\n" :: (["a &amp; b"] ++ ["</p>\n"]))).cur.Blocks = [Block.ParaBlock "a & b"] :=
  ⟨by decide,
   by
     rw [(C8_block_text_is_unescaped_concatenation unescapeBasic unmarshaler.zero
          (NewPackage "foo" "" none) ["a &amp; b"] (by decide)).1]
     decide⟩

/-- C9: in every state, `<p>\n` followed by fragments none of which is a
control marker, with no closing marker, leaves the Package (so its
Sections) and the pending Section (so its Blocks) as they were; only the
state, now opPara, and the line buffer change. -/
theorem C9_unterminated_paragraph_appends_nothing (unescape : String → String)
    (u : unmarshaler) (fs : List String) (hfs : ∀ f ∈ fs, isControl f = false) :
    (unmarshaler.feed unescape u ("<p>\n" :: fs)).pkg = u.pkg ∧
    (unmarshaler.feed unescape u ("<p>\n" :: fs)).cur = u.cur ∧
    (unmarshaler.feed unescape u ("<p>\n" :: fs)).pkg.Sections = u.pkg.Sections ∧
    (unmarshaler.feed unescape u ("<p>\n" :: fs)).cur.Blocks = u.cur.Blocks ∧
    (unmarshaler.feed unescape u ("<p>\n" :: fs)).op = op.opPara := by
  rw [feed_cons, Write_open_para, feed_text unescape fs _ hfs (Or.inl rfl)]
  simp

/-- C9 at a truncated stream: a Section with one Block stays as it is. -/
theorem C9_unterminated_paragraph_appends_nothing_witness :
    (∀ f ∈ ["Package foo", " does X."], isControl f = false) ∧
    (unmarshaler.feed unescapeBasic
        { pkg := NewPackage "foo" "" none,
          cur := { Id := "intro", Heading := "Intro", Blocks := [Block.ParaBlock "x"] },
          op := op.opHead, line := "" }
        ("<p>\n" :: ["Package foo", " does X."])).pkg.Sections = [] ∧
    (unmarshaler.feed unescapeBasic
        { pkg := NewPackage "foo" "" none,
          cur := { Id := "intro", Heading := "Intro", Blocks := [Block.ParaBlock "x"] },
          op := op.opHead, line := "" }
        ("<p>\n" :: ["Package foo", " does X."])).cur.Blocks = [Block.ParaBlock "x"] :=
  ⟨by decide,
   (C9_unterminated_paragraph_appends_nothing unescapeBasic
      { pkg := NewPackage "foo" "" none,
        cur := { Id := "intro", Heading := "Intro", Blocks := [Block.ParaBlock "x"] },
        op := op.opHead, line := "" }
      ["Package foo", " does X."] (by decide)).2.2.1,
   (C9_unterminated_paragraph_appends_nothing unescapeBasic
      { pkg := NewPackage "foo" "" none,
        cur := { Id := "intro", Heading := "Intro", Blocks := [Block.ParaBlock "x"] },
        op := op.opHead, line := "" }
      ["Package foo", " does X."] (by decide)).2.2.2.1⟩

/-- C10: `reset(pkg)` leaves the same state whatever the unmarshaler held
before, the state a zero-value unmarshaler has after `reset(pkg)`: bound to
`pkg`, pending Section with empty Id, empty Heading and no Blocks, state
opId, empty line buffer.  Two unmarshalers with any history, each reset on
a new Package and fed the same fragments, end with equal Sections in their
Packages, equal pending Sections, equal state and equal line buffer. -/
theorem C10_reset_discards_prior_state (unescape : String → String)
    (u v : unmarshaler) (pkg : Package)
    (name1 path1 name2 path2 : String) (mod1 mod2 : Option Module)
    (frags : List String) :
    u.reset pkg = unmarshaler.zero.reset pkg ∧
    u.reset pkg =
      { pkg := pkg, cur := { Id := "", Heading := "", Blocks := [] },
        op := op.opId, line := "" } ∧
    (unmarshaler.feed unescape (u.reset (NewPackage name1 path1 mod1)) frags).pkg.Sections =
      (unmarshaler.feed unescape (v.reset (NewPackage name2 path2 mod2)) frags).pkg.Sections ∧
    (unmarshaler.feed unescape (u.reset (NewPackage name1 path1 mod1)) frags).cur =
      (unmarshaler.feed unescape (v.reset (NewPackage name2 path2 mod2)) frags).cur ∧
    (unmarshaler.feed unescape (u.reset (NewPackage name1 path1 mod1)) frags).op =
      (unmarshaler.feed unescape (v.reset (NewPackage name2 path2 mod2)) frags).op ∧
    (unmarshaler.feed unescape (u.reset (NewPackage name1 path1 mod1)) frags).line =
      (unmarshaler.feed unescape (v.reset (NewPackage name2 path2 mod2)) frags).line := by
  have h := feed_tree_congr unescape frags (u.reset (NewPackage name1 path1 mod1))
    (v.reset (NewPackage name2 path2 mod2)) rfl
  simp only [unmarshaler.tree, Prod.mk.injEq] at h
  exact ⟨rfl, rfl, h.1, h.2.1, h.2.2.1, h.2.2.2⟩

/-! ## Lemmas on Go string primitives -/

theorem lead_byte_two (x : UInt8) : (x &&& 0x1f ||| 0xc0) ≠ 46 := by
  rcases x with ⟨v⟩
  revert v
  decide

theorem lead_byte_three (x : UInt8) : (x &&& 0x0f ||| 0xe0) ≠ 46 := by
  rcases x with ⟨v⟩
  revert v
  decide

theorem lead_byte_four (x : UInt8) : (x &&& 0x07 ||| 0xf0) ≠ 46 := by
  rcases x with ⟨v⟩
  revert v
  decide

theorem ascii_byte_dot (v : UInt32) (h : v ≤ 0x7f) (h2 : v.toUInt8 = 46) : v = 46 := by
  have h1 : v.toNat ≤ 127 := h
  have h3 : v.toUInt8.toNat = 46 := by rw [h2]; rfl
  have h4 : v.toUInt8.toNat = v.toNat % 256 := rfl
  rw [h4] at h3
  have h5 : v.toNat = 46 := by omega
  cases v with
  | mk val =>
    congr 1
    exact BitVec.eq_of_toNat_eq h5

/-- The first byte of the UTF-8 form of a character is the byte of `.`
exactly for the character `.`. -/
theorem utf8EncodeChar_head_dot (c : Char) :
    (String.utf8EncodeChar c).head? = some 46 ↔ c = '.' := by
  unfold String.utf8EncodeChar
  simp only []
  split
  · rename_i h
    simp only [List.head?_cons, Option.some.injEq]
    constructor
    · intro h2
      exact Char.ext (ascii_byte_dot c.val h h2)
    · rintro rfl
      decide
  · split
    · simp [lead_byte_two]
      rintro rfl
      contradiction
    · split
      · simp [lead_byte_three]
        rintro rfl
        contradiction
      · simp [lead_byte_four]
        rintro rfl
        contradiction

theorem utf8EncodeChar_ne_nil (c : Char) : String.utf8EncodeChar c ≠ [] := by
  intro h
  have := String.length_utf8EncodeChar c
  rw [h] at this
  have hpos := Char.utf8Size_pos c
  simp at this
  omega

/-- The expression `name[0]` on a name whose first character is `c`. -/
theorem byteAt_zero_cons (c : Char) (cs : List Char) :
    ∃ b, byteAt (String.mk (c :: cs)) 0 = Except.ok b ∧ (b = 46 ↔ c = '.') := by
  obtain ⟨b, bs, hb⟩ := List.exists_cons_of_ne_nil (utf8EncodeChar_ne_nil c)
  refine ⟨b, ?_, ?_⟩
  · simp [byteAt, String.toUTF8, hb]
  · have := utf8EncodeChar_head_dot c
    rw [hb] at this
    simpa using this

theorem byteAt_zero_empty : byteAt "" 0 = Except.error Fault.indexOutOfRange := by
  decide

theorem begins_with_dot_iff (c : Char) (cs : List Char) :
    (∃ rest : String, String.mk (c :: cs) = "." ++ rest) ↔ c = '.' := by
  constructor
  · rintro ⟨rest, h⟩
    have h2 := congrArg String.data h
    simp only [String.data_append] at h2
    simp only [List.singleton_append, List.cons.injEq] at h2
    exact h2.1
  · rintro rfl
    refine ⟨String.mk cs, ?_⟩
    apply String.ext
    simp only [String.data_append]
    rfl

/-- The value of `ScanFilter` on a non-empty name. -/
theorem ScanFilter_nonempty (path name : String) (entry : DirEntry) (hne : name ≠ "") :
    ∃ v : Bool, ScanFilter path name entry = Except.ok v ∧
      (v = false ↔ ((∃ rest : String, name = "." ++ rest) ∨ name = "internal")) := by
  rcases name with ⟨data⟩
  cases data with
  | nil => exact absurd rfl hne
  | cons c cs =>
    obtain ⟨b, hb, hdot⟩ := byteAt_zero_cons c cs
    refine ⟨(b != 46 && String.mk (c :: cs) != "internal"), ?_, ?_⟩
    · simp [ScanFilter, hb]
    · rw [begins_with_dot_iff, ← hdot]
      simp only [Bool.and_eq_false_iff, bne_eq_false_iff_eq]

/-! ## Claims on the filter -/

/-- C4: on a non-empty name the default filter returns false exactly when
the name begins with `.` or is "internal", returns true for every other
name, and gives the same result for every path and entry. -/
theorem C4_default_filter_rejects_dot_and_internal (path name : String) (entry : DirEntry)
    (hne : name ≠ "") :
    (ScanFilter path name entry = Except.ok false ↔
      ((∃ rest : String, name = "." ++ rest) ∨ name = "internal")) ∧
    (¬ ((∃ rest : String, name = "." ++ rest) ∨ name = "internal") →
      ScanFilter path name entry = Except.ok true) ∧
    (∀ (path2 : String) (entry2 : DirEntry),
      ScanFilter path2 name entry2 = ScanFilter path name entry) := by
  obtain ⟨v, hv, hiff⟩ := ScanFilter_nonempty path name entry hne
  refine ⟨?_, ?_, ?_⟩
  · rw [hv]
    constructor
    · intro h
      exact hiff.mp (by simpa using h)
    · intro h
      rw [hiff.mpr h]
  · intro h
    rw [hv]
    cases v with
    | true => rfl
    | false => exact absurd (hiff.mp rfl) h
  · intro path2 entry2
    rfl

/-- C4 at the names ".git", "internal" and "cmd". -/
theorem C4_default_filter_rejects_dot_and_internal_witness :
    ".git" ≠ "" ∧
    ScanFilter "/repo/.git" ".git" { Name := ".git", IsDir := true } = Except.ok false ∧
    ScanFilter "/repo/internal" "internal" { Name := "internal", IsDir := true }
      = Except.ok false ∧
    ScanFilter "/repo/cmd" "cmd" { Name := "cmd", IsDir := true } = Except.ok true :=
  ⟨by decide,
   (C4_default_filter_rejects_dot_and_internal "/repo/.git" ".git"
      { Name := ".git", IsDir := true } (by decide)).1.mpr (Or.inl ⟨"git", by decide⟩),
   by decide, by decide⟩

/-! ## Lemmas on the scanner -/

theorem grows_refl (s : scanner) : s.grows s :=
  ⟨rfl, List.prefix_refl _, List.prefix_refl _⟩

theorem grows_trans {s t u : scanner} (h1 : s.grows t) (h2 : t.grows u) : s.grows u :=
  ⟨h2.1.trans h1.1, h1.2.1.trans h2.2.1, h1.2.2.trans h2.2.2⟩

theorem goAppend_getD {α : Type} (xs : Option (List α)) (x : α) :
    (goAppend xs x).getD [] = xs.getD [] ++ [x] := rfl

theorem grows_add_module (s : scanner) (m : Module) :
    s.grows { s with Modules := goAppend s.Modules m } :=
  ⟨rfl, by simp [goAppend_getD], List.prefix_refl _⟩

theorem grows_add_package (s : scanner) (pkg : Package) :
    s.grows { s with Packages := goAppend s.Packages pkg } :=
  ⟨rfl, List.prefix_refl _, by simp [goAppend_getD]⟩

theorem scanModule_grows (env : Env) (s t : scanner) (dir : String)
    (m : Option Module) (e : Option Error)
    (h : s.scanModule env dir = Except.ok (t, m, e)) : s.grows t := by
  unfold scanner.scanModule at h
  simp only [] at h
  split at h
  · cases h
    exact grows_refl s
  · split at h
    · split at h <;> cases h <;> exact grows_refl s
    · split at h
      · cases h
      · cases h
        exact grows_add_module s _

theorem scanPackagesLoop_grows (env : Env) (path : String) (mod : Option Module)
    (pkgs : List AstPackage) :
    ∀ (s : scanner) (uw : unmarshaler),
      s.grows (scanner.scanPackagesLoop env path mod pkgs s uw).1 := by
  induction pkgs with
  | nil =>
    intro s uw
    exact grows_refl s
  | cons p rest ih =>
    intro s uw
    unfold scanner.scanPackagesLoop
    simp only []
    split
    · exact grows_refl s
    · exact grows_trans (grows_add_package s _) (ih _ _)

theorem scanPackages_grows (env : Env) (s : scanner) (dir path : String)
    (mod : Option Module) : s.grows (s.scanPackages env dir path mod).1 := by
  unfold scanner.scanPackages
  split
  · exact grows_refl s
  · exact scanPackagesLoop_grows env path mod _ s _

theorem packagesStep_grows (env : Env) (s t : scanner) (dir : String) (mod : Option Module)
    (e : Option Error) (h : s.packagesStep env dir mod = Except.ok (t, e)) : s.grows t := by
  unfold scanner.packagesStep at h
  simp only [] at h
  split at h
  · cases h
  · rename_i p hp
    have h2 := scanPackages_grows env s dir p mod
    simp only [Except.ok.injEq] at h
    rw [h] at h2
    exact h2

theorem contains_self (e : Error) : e.contains e = true := by
  unfold Error.contains
  simp

theorem contains_multi_left (l r x : Error) (h : l.contains x = true) :
    (Error.multi l r).contains x = true := by
  rw [Error.contains]
  simp [h]

theorem contains_multi_right (l r x : Error) (h : r.contains x = true) :
    (Error.multi l r).contains x = true := by
  rw [Error.contains]
  simp [h]

theorem Append_eq_none (dest err : Option Error) :
    Append dest err = none ↔ dest = none ∧ err = none := by
  cases dest <;> cases err <;> simp [Append]

theorem Append_keeps (d : Error) (err : Option Error) :
    ∃ e, Append (some d) err = some e ∧ ∀ x, d.contains x = true → e.contains x = true := by
  cases err with
  | none => exact ⟨d, rfl, fun _ h => h⟩
  | some e => exact ⟨Error.multi d e, rfl, fun x h => contains_multi_left d e x h⟩

theorem Append_takes (dest : Option Error) (x : Error) :
    ∃ e, Append dest (some x) = some e ∧ e.contains x = true := by
  cases dest with
  | none => exact ⟨x, rfl, contains_self x⟩
  | some d => exact ⟨Error.multi d x, rfl, contains_multi_right d x x (contains_self x)⟩

theorem appendAll_cons (acc : Option Error) (r : scanner × Option Error)
    (rs : List (scanner × Option Error)) :
    appendAll acc (r :: rs) = appendAll (Append acc r.2) rs := rfl

theorem appendAll_eq_none (rs : List (scanner × Option Error)) :
    ∀ acc, appendAll acc rs = none ↔ acc = none ∧ ∀ r ∈ rs, r.2 = none := by
  induction rs with
  | nil => intro acc; simp [appendAll]
  | cons r rs ih =>
    intro acc
    rw [appendAll_cons, ih, Append_eq_none]
    simp only [List.mem_cons, forall_eq_or_imp]
    tauto

theorem appendAll_keeps (rs : List (scanner × Option Error)) :
    ∀ d : Error, ∃ e, appendAll (some d) rs = some e ∧
      ∀ x, d.contains x = true → e.contains x = true := by
  induction rs with
  | nil => intro d; exact ⟨d, rfl, fun _ h => h⟩
  | cons r rs ih =>
    intro d
    obtain ⟨e1, he1, hk1⟩ := Append_keeps d r.2
    obtain ⟨e2, he2, hk2⟩ := ih e1
    refine ⟨e2, ?_, fun x hx => hk2 x (hk1 x hx)⟩
    rw [appendAll_cons, he1, he2]

theorem appendAll_contains (rs : List (scanner × Option Error)) :
    ∀ (acc : Option Error) (r : scanner × Option Error) (x : Error),
      r ∈ rs → r.2 = some x →
      ∃ e, appendAll acc rs = some e ∧ e.contains x = true := by
  induction rs with
  | nil => intro acc r x hr; cases hr
  | cons r0 rs ih =>
    intro acc r x hr hx
    rw [appendAll_cons]
    rcases List.mem_cons.mp hr with h | h
    · subst h
      rw [hx]
      obtain ⟨e1, he1, hc1⟩ := Append_takes acc x
      obtain ⟨e2, he2, hk2⟩ := appendAll_keeps rs e1
      exact ⟨e2, by rw [he1, he2], hk2 x hc1⟩
    · exact ih _ r x h hx

theorem lastScanner_nil (s : scanner) : lastScanner s [] = s := rfl

theorem lastScanner_cons (s : scanner) (r : scanner × Option Error)
    (rs : List (scanner × Option Error)) :
    lastScanner s (r :: rs) = lastScanner r.1 rs := by
  cases rs with
  | nil => rfl
  | cons r1 rs =>
    simp only [lastScanner, List.getLast?_cons_cons]
    cases h : (r1 :: rs).getLast? with
    | none => simp at h
    | some x => rfl

theorem passingPaths_nil (env : Env) (dir : String) (filter : ScannerFilter) :
    passingPaths env dir filter [] = [] := rfl

theorem passingPaths_skip (env : Env) (dir : String) (filter : ScannerFilter)
    (e : DirEntry) (rest : List DirEntry)
    (h : e.IsDir = false ∨ filter (env.Join dir e.Name) e.Name e = Except.ok false) :
    passingPaths env dir filter (e :: rest) = passingPaths env dir filter rest := by
  rcases h with h | h <;> simp [passingPaths, List.filter_cons, h]

theorem passingPaths_take (env : Env) (dir : String) (filter : ScannerFilter)
    (e : DirEntry) (rest : List DirEntry)
    (h1 : e.IsDir = true) (h2 : filter (env.Join dir e.Name) e.Name e = Except.ok true) :
    passingPaths env dir filter (e :: rest) =
      env.Join dir e.Name :: passingPaths env dir filter rest := by
  simp [passingPaths, List.filter_cons, h1, h2]

/-- The loop of `scanDir` is the run of the scans of the passing paths, when
the filter answers on every directory entry. -/
theorem scanEntries_eq_subScans (env : Env)
    (recur : scanner → String → Except Fault (scanner × Option Error))
    (dir : String) (filter : ScannerFilter) (entries : List DirEntry) :
    ∀ (s : scanner) (acc : Option Error),
      (∀ e ∈ entries, e.IsDir = true →
        ∃ b, filter (env.Join dir e.Name) e.Name e = Except.ok b) →
      scanner.scanEntries env recur dir filter entries s acc =
        match subScans recur (passingPaths env dir filter entries) s with
        | Except.error f => Except.error f
        | Except.ok rs => Except.ok (lastScanner s rs, appendAll acc rs) := by
  induction entries with
  | nil =>
    intro s acc _
    rfl
  | cons e rest ih =>
    intro s acc hf
    have hrest : ∀ e1 ∈ rest, e1.IsDir = true →
        ∃ b, filter (env.Join dir e1.Name) e1.Name e1 = Except.ok b :=
      fun e1 h1 => hf e1 (List.mem_cons_of_mem e h1)
    cases hd : e.IsDir with
    | false =>
      rw [passingPaths_skip env dir filter e rest (Or.inl hd)]
      rw [scanner.scanEntries]
      simp only [hd, Bool.not_false, if_true]
      exact ih s acc hrest
    | true =>
      obtain ⟨b, hb⟩ := hf e (List.mem_cons_self e rest) hd
      cases b with
      | false =>
        rw [passingPaths_skip env dir filter e rest (Or.inr hb)]
        rw [scanner.scanEntries]
        simp only [hd, hb, Bool.not_true]
        exact ih s acc hrest
      | true =>
        rw [passingPaths_take env dir filter e rest hd hb]
        rw [scanner.scanEntries, subScans]
        simp only [hd, hb, Bool.not_true]
        cases hr : recur s (env.Join dir e.Name) with
        | error f => rfl
        | ok r =>
          obtain ⟨s1, err⟩ := r
          simp only []
          rw [ih s1 (Append acc err) hrest]
          cases subScans recur (passingPaths env dir filter rest) s1 with
          | error f => rfl
          | ok rs =>
            simp [lastScanner_cons, appendAll_cons]

theorem scanEntries_grows (env : Env)
    (recur : scanner → String → Except Fault (scanner × Option Error))
    (hrecur : ∀ s p t e, recur s p = Except.ok (t, e) → s.grows t)
    (dir : String) (filter : ScannerFilter) (entries : List DirEntry) :
    ∀ (s : scanner) (acc : Option Error) (t : scanner) (e : Option Error),
      scanner.scanEntries env recur dir filter entries s acc = Except.ok (t, e) →
      s.grows t := by
  induction entries with
  | nil =>
    intro s acc t e h
    simp only [scanner.scanEntries, Except.ok.injEq, Prod.mk.injEq] at h
    rw [← h.1]
    exact grows_refl s
  | cons en rest ih =>
    intro s acc t e h
    rw [scanner.scanEntries] at h
    split at h
    · exact ih s acc t e h
    · simp only [] at h
      split at h
      · cases h
      · exact ih s acc t e h
      · split at h
        · cases h
        · rename_i s1 err hr
          exact grows_trans (hrecur _ _ _ _ hr) (ih s1 _ t e h)

/-- A scan only appends to the two collections of the scanner and keeps its
start directory. -/
theorem scanDir_grows (env : Env) (fuel : Nat) :
    ∀ (s : scanner) (dir : String) (mode : ScanMode) (filter : ScannerFilter)
      (t : scanner) (e : Option Error),
      scanner.scanDir env fuel s dir mode filter = Except.ok (t, e) → s.grows t := by
  induction fuel with
  | zero =>
    intro s dir mode filter t e h
    simp [scanner.scanDir] at h
  | succ fuel ih =>
    intro s dir mode filter t e h
    rw [scanner.scanDir] at h
    simp only [] at h
    split at h
    · cases h
    · rename_i s1 m err h1
      have g1 : s.grows s1 := by
        split at h1
        · exact scanModule_grows env s s1 dir _ _ h1
        · simp only [Except.ok.injEq, Prod.mk.injEq] at h1
          rw [← h1.1]
          exact grows_refl s
      simp only [Except.ok.injEq, Prod.mk.injEq] at h
      rw [← h.1]
      exact g1
    · rename_i s1 m h1
      have g1 : s.grows s1 := by
        split at h1
        · exact scanModule_grows env s s1 dir _ _ h1
        · simp only [Except.ok.injEq, Prod.mk.injEq] at h1
          rw [← h1.1]
          exact grows_refl s
      split at h
      · cases h
      · rename_i s2 err h2
        have g2 : s1.grows s2 := by
          split at h2
          · exact packagesStep_grows env s1 s2 dir _ _ h2
          · simp only [Except.ok.injEq, Prod.mk.injEq] at h2
            rw [← h2.1]
            exact grows_refl s1
        simp only [Except.ok.injEq, Prod.mk.injEq] at h
        rw [← h.1]
        exact grows_trans g1 g2
      · rename_i s2 h2
        have g2 : s1.grows s2 := by
          split at h2
          · exact packagesStep_grows env s1 s2 dir _ _ h2
          · simp only [Except.ok.injEq, Prod.mk.injEq] at h2
            rw [← h2.1]
            exact grows_refl s1
        split at h
        · split at h
          · simp only [Except.ok.injEq, Prod.mk.injEq] at h
            rw [← h.1]
            exact grows_trans g1 g2
          · exact grows_trans (grows_trans g1 g2)
              (scanEntries_grows env _ (fun a p b c hr => ih a p mode filter b c hr)
                dir filter _ s2 none t e h)
        · simp only [Except.ok.injEq, Prod.mk.injEq] at h
          rw [← h.1]
          exact grows_trans g1 g2

theorem subScans_cons_ok (recur : scanner → String → Except Fault (scanner × Option Error))
    (p : String) (ps : List String) (s : scanner) (rs : List (scanner × Option Error))
    (h : subScans recur (p :: ps) s = Except.ok rs) :
    ∃ r rest, rs = r :: rest ∧ recur s p = Except.ok r ∧
      subScans recur ps r.1 = Except.ok rest := by
  rw [subScans] at h
  split at h
  · cases h
  · rename_i r hr
    split at h
    · cases h
    · rename_i rest hrest
      simp only [Except.ok.injEq] at h
      exact ⟨r, rest, h.symm, hr, hrest⟩

theorem subScans_length (recur : scanner → String → Except Fault (scanner × Option Error))
    (ps : List String) :
    ∀ (s : scanner) (rs : List (scanner × Option Error)),
      subScans recur ps s = Except.ok rs → rs.length = ps.length := by
  induction ps with
  | nil =>
    intro s rs h
    simp only [subScans, Except.ok.injEq] at h
    subst h
    rfl
  | cons p ps ih =>
    intro s rs h
    obtain ⟨r, rest, hrs, _, hrest⟩ := subScans_cons_ok recur p ps s rs h
    rw [hrs, List.length_cons, List.length_cons, ih _ _ hrest]

/-- In a run of scans every scan starts on the scanner its predecessor left
(the first on `s`) at the path of its position. -/
theorem subScans_at (recur : scanner → String → Except Fault (scanner × Option Error))
    (ps : List String) :
    ∀ (s : scanner) (rs : List (scanner × Option Error)),
      subScans recur ps s = Except.ok rs →
      ∀ (k : Nat) (p : String), ps[k]? = some p →
        ∃ r, rs[k]? = some r ∧ recur (lastScanner s (rs.take k)) p = Except.ok r := by
  induction ps with
  | nil =>
    intro s rs _ k p hp
    simp at hp
  | cons p0 ps ih =>
    intro s rs h k p hp
    obtain ⟨r, rest, hrs, hr, hrest⟩ := subScans_cons_ok recur p0 ps s rs h
    subst hrs
    cases k with
    | zero =>
      simp only [List.getElem?_cons_zero, Option.some.injEq] at hp
      subst hp
      exact ⟨r, by simp, by simpa [lastScanner_nil] using hr⟩
    | succ k =>
      simp only [List.getElem?_cons_succ] at hp
      obtain ⟨r1, hr1, hrun⟩ := ih r.1 rest hrest k p hp
      refine ⟨r1, by simpa using hr1, ?_⟩
      rw [List.take_succ_cons, lastScanner_cons]
      exact hrun

theorem subScans_grows (recur : scanner → String → Except Fault (scanner × Option Error))
    (hrecur : ∀ s p t e, recur s p = Except.ok (t, e) → s.grows t)
    (ps : List String) :
    ∀ (s : scanner) (rs : List (scanner × Option Error)),
      subScans recur ps s = Except.ok rs →
      s.grows (lastScanner s rs) ∧ ∀ r ∈ rs, r.1.grows (lastScanner s rs) := by
  induction ps with
  | nil =>
    intro s rs h
    simp only [subScans, Except.ok.injEq] at h
    subst h
    exact ⟨grows_refl s, fun r hr => by cases hr⟩
  | cons p ps ih =>
    intro s rs h
    obtain ⟨r, rest, hrs, hr, hrest⟩ := subScans_cons_ok recur p ps s rs h
    subst hrs
    obtain ⟨g1, g2⟩ := ih r.1 rest hrest
    rw [lastScanner_cons]
    have g0 : s.grows r.1 := hrecur s p r.1 r.2 hr
    refine ⟨grows_trans g0 g1, ?_⟩
    intro r1 hr1
    rcases List.mem_cons.mp hr1 with h1 | h1
    · rw [h1]
      exact g1
    · exact g2 r1 h1

/-- The loop of `scanDir` gives the same result with any other recursive call
that agrees with `recur` wherever `recur` does not run out of budget. -/
theorem scanEntries_congr (env : Env)
    (recur1 recur2 : scanner → String → Except Fault (scanner × Option Error))
    (hrecur : ∀ s p, recur1 s p ≠ Except.error Fault.outOfFuel → recur2 s p = recur1 s p)
    (dir : String) (filter : ScannerFilter) (entries : List DirEntry) :
    ∀ (s : scanner) (acc : Option Error),
      scanner.scanEntries env recur1 dir filter entries s acc ≠ Except.error Fault.outOfFuel →
      scanner.scanEntries env recur2 dir filter entries s acc =
        scanner.scanEntries env recur1 dir filter entries s acc := by
  induction entries with
  | nil =>
    intro s acc _
    rfl
  | cons en rest ih =>
    intro s acc h
    cases hd : en.IsDir with
    | false =>
      simp only [scanner.scanEntries, hd, Bool.not_false, if_true] at h ⊢
      exact ih s acc h
    | true =>
      cases hf : filter (env.Join dir en.Name) en.Name en with
      | error f =>
        simp only [scanner.scanEntries, hd, hf, Bool.not_true, Bool.false_eq_true, if_false]
      | ok b =>
        cases b with
        | false =>
          simp only [scanner.scanEntries, hd, hf, Bool.not_true, Bool.false_eq_true,
            if_false] at h ⊢
          exact ih s acc h
        | true =>
          simp only [scanner.scanEntries, hd, hf, Bool.not_true, Bool.false_eq_true,
            if_false] at h ⊢
          cases hr : recur1 s (env.Join dir en.Name) with
          | error f =>
            rw [hr] at h
            have hne : recur1 s (env.Join dir en.Name) ≠ Except.error Fault.outOfFuel := by
              rw [hr]
              exact h
            rw [hrecur s _ hne, hr]
          | ok r =>
            rw [hr] at h
            have hne : recur1 s (env.Join dir en.Name) ≠ Except.error Fault.outOfFuel := by
              rw [hr]
              intro hc
              cases hc
            rw [hrecur s _ hne, hr]
            exact ih _ _ h

/-- A scan that did not run out of budget gives the same result with a larger
budget. -/
theorem scanDir_more_fuel (env : Env) (fuel : Nat) :
    ∀ (s : scanner) (dir : String) (mode : ScanMode) (filter : ScannerFilter),
      scanner.scanDir env fuel s dir mode filter ≠ Except.error Fault.outOfFuel →
      scanner.scanDir env (fuel + 1) s dir mode filter =
        scanner.scanDir env fuel s dir mode filter := by
  induction fuel with
  | zero =>
    intro s dir mode filter h
    exact absurd rfl h
  | succ fuel ih =>
    intro s dir mode filter h
    rw [scanner.scanDir] at h
    conv_lhs => rw [scanner.scanDir]
    conv_rhs => rw [scanner.scanDir]
    simp only [] at h ⊢
    split
    · rfl
    · rfl
    · rename_i s1 m h1
      simp only [h1] at h
      split
      · rfl
      · rfl
      · rename_i s2 h2
        simp only [h2] at h
        split
        · rename_i hdeep
          simp only [hdeep, if_true] at h
          split
          · rfl
          · rename_i entries hread
            simp only [hread] at h
            exact scanEntries_congr env _ _
              (fun t p hne => ih t p mode filter hne) dir filter entries s2 none h
        · rfl

theorem scanModule_ne_outOfFuel (env : Env) (s : scanner) (dir : String) :
    s.scanModule env dir ≠ Except.error Fault.outOfFuel := by
  unfold scanner.scanModule NewModuleFromModfile
  simp only []
  intro h
  split at h
  · cases h
  · split at h
    · split at h <;> cases h
    · split at h
      · rename_i hm
        split at hm
        · cases hm
          cases h
        · cases hm
      · cases h

theorem packagesStep_ne_outOfFuel (env : Env) (s : scanner) (dir : String)
    (mod : Option Module) :
    s.packagesStep env dir mod ≠ Except.error Fault.outOfFuel := by
  unfold scanner.packagesStep sliceFrom
  simp only []
  intro h
  split at h
  · rename_i flt hflt
    split at hflt
    · split at hflt
      · rename_i hs
        split at hs
        · cases hs
          cases hflt
          cases h
        · cases hs
      · cases hflt
    · cases hflt
  · cases h

theorem scanEntries_ne_outOfFuel (env : Env)
    (recur : scanner → String → Except Fault (scanner × Option Error))
    (dir : String) (filter : ScannerFilter)
    (hfilter : ∀ p n e, filter p n e ≠ Except.error Fault.outOfFuel)
    (entries : List DirEntry) :
    ∀ (s : scanner) (acc : Option Error),
      (∀ e ∈ entries, e.IsDir = true →
        ∀ t, recur t (env.Join dir e.Name) ≠ Except.error Fault.outOfFuel) →
      scanner.scanEntries env recur dir filter entries s acc ≠ Except.error Fault.outOfFuel := by
  induction entries with
  | nil =>
    intro s acc _ h
    cases h
  | cons en rest ih =>
    intro s acc hrec
    have hrest : ∀ e ∈ rest, e.IsDir = true →
        ∀ t, recur t (env.Join dir e.Name) ≠ Except.error Fault.outOfFuel :=
      fun e he => hrec e (List.mem_cons_of_mem en he)
    cases hd : en.IsDir with
    | false =>
      simp only [scanner.scanEntries, hd, Bool.not_false, if_true]
      exact ih s acc hrest
    | true =>
      cases hf : filter (env.Join dir en.Name) en.Name en with
      | error f =>
        simp only [scanner.scanEntries, hd, hf, Bool.not_true, Bool.false_eq_true, if_false]
        intro hc
        simp only [Except.error.injEq] at hc
        rw [hc] at hf
        exact hfilter _ _ _ hf
      | ok b =>
        cases b with
        | false =>
          simp only [scanner.scanEntries, hd, hf, Bool.not_true, Bool.false_eq_true,
            if_false]
          exact ih s acc hrest
        | true =>
          simp only [scanner.scanEntries, hd, hf, Bool.not_true, Bool.false_eq_true,
            if_false]
          cases hr : recur s (env.Join dir en.Name) with
          | error f =>
            intro hc
            simp only [Except.error.injEq] at hc
            rw [hc] at hr
            exact hrec en (List.mem_cons_self en rest) hd s hr
          | ok r => exact ih _ _ hrest

/-- A scan returns whenever the budget exceeds the depth of the directory
tree below `dir`: `rank` is any measure that falls from a directory to each
of its subdirectories. -/
theorem scanDir_enough_fuel (env : Env) (rank : String → Nat) (mode : ScanMode)
    (filter : ScannerFilter)
    (hrank : ∀ dir entries, env.ReadDir dir = Except.ok entries →
      ∀ e ∈ entries, e.IsDir = true → rank (env.Join dir e.Name) < rank dir)
    (hfilter : ∀ p n e, filter p n e ≠ Except.error Fault.outOfFuel) (fuel : Nat) :
    ∀ (s : scanner) (dir : String), rank dir < fuel →
      scanner.scanDir env fuel s dir mode filter ≠ Except.error Fault.outOfFuel := by
  induction fuel with
  | zero =>
    intro s dir h
    exact absurd h (Nat.not_lt_zero _)
  | succ fuel ih =>
    intro s dir hlt
    rw [scanner.scanDir]
    simp only []
    split
    · rename_i flt h1
      intro hc
      simp only [Except.error.injEq] at hc
      rw [hc] at h1
      split at h1
      · exact scanModule_ne_outOfFuel env s dir h1
      · cases h1
    · intro hc
      cases hc
    · rename_i s1 m h1
      split
      · rename_i flt h2
        intro hc
        simp only [Except.error.injEq] at hc
        rw [hc] at h2
        split at h2
        · exact packagesStep_ne_outOfFuel env s1 dir m h2
        · cases h2
      · intro hc
        cases hc
      · rename_i s2 h2
        split
        · split
          · intro hc
            cases hc
          · rename_i entries hread
            apply scanEntries_ne_outOfFuel env _ dir filter hfilter entries s2 none
            intro e he hd t
            exact ih t _ (by have := hrank dir entries hread e he hd; omega)
        · intro hc
          cases hc

/-- For a directory strictly below the start directory the slice expression
yields the path relative to it. -/
theorem sliceFrom_below_root (root rel : String) :
    sliceFrom (root ++ "/" ++ rel) (root.utf8ByteSize + 1) = Except.ok rel := by
  rcases root with ⟨l⟩
  rcases rel with ⟨m⟩
  have hdata : (String.mk l ++ "/" ++ String.mk m) =
      String.mk ((l ++ ['/']) ++ m ++ []) := by
    apply String.ext
    simp
  have hlen : String.utf8Len (l ++ ['/']) = String.utf8Len l + 1 := by
    simp [String.utf8Len_append]
    rfl
  have hx := String.extract_of_valid (l ++ ['/']) m []
  unfold sliceFrom
  rw [hdata]
  simp only [String.utf8ByteSize_mk, String.endPos_eq]
  rw [if_neg]
  · rw [← hlen]
    have h2 : String.utf8Len (l ++ ['/'] ++ m ++ []) =
        String.utf8Len (l ++ ['/']) + String.utf8Len m := by
      simp only [List.append_nil, String.utf8Len_append]
    rw [h2, hx]
  · have h3 : String.utf8Len (l ++ ['/'] ++ m ++ []) =
        String.utf8Len l + 1 + String.utf8Len m := by
      simp only [List.append_nil, String.utf8Len_append, hlen]
    rw [h3]
    omega

/-! ## Claims on the scanner -/

/-- C1, on the code: when reading `<dir>/go.mod` fails with a not-exist
error, `scanModule` returns no Module and a non-nil error, the traced
not-exist error, and leaves the scanner as it was; a `scanDir` whose mode
has `ScanModule` returns that error at once. -/
theorem C1_missing_manifest_is_an_error (env : Env) (s : scanner) (dir p : String)
    (h : env.ReadFile (env.Join dir "go.mod") = Except.error (Error.notExist p)) :
    IsNotExist (Error.notExist p) = true ∧
    s.scanModule env dir =
      Except.ok (s, none, some (Error.traced (Error.notExist p))) ∧
    ∀ (fuel : Nat) (mode : ScanMode) (filter : ScannerFilter),
      mode.has ScanModule = true →
      scanner.scanDir env (fuel + 1) s dir mode filter =
        Except.ok (s, some (Error.traced (Error.notExist p))) := by
  have hm : s.scanModule env dir =
      Except.ok (s, none, some (Error.traced (Error.notExist p))) := by
    simp [scanner.scanModule, h, Trace]
  refine ⟨rfl, hm, ?_⟩
  intro fuel mode filter hmode
  simp [scanner.scanDir, hmode, hm]

/-- C1 at the directory `/repo/a`, which has no manifest. -/
theorem C1_missing_manifest_is_an_error_witness :
    demoEnv.ReadFile (demoEnv.Join "/repo/a" "go.mod")
      = Except.error (Error.notExist "/repo/a/go.mod") ∧
    demoScanner.scanModule demoEnv "/repo/a" =
      Except.ok (demoScanner, none, some (Error.traced (Error.notExist "/repo/a/go.mod"))) :=
  ⟨by decide,
   (C1_missing_manifest_is_an_error demoEnv demoScanner "/repo/a" "/repo/a/go.mod"
      (by decide)).2.1⟩

theorem hasPrefixStr_self (dir : String) : hasPrefixStr dir dir = true := by
  simp [hasPrefixStr]

theorem sliceFrom_past_end (dir : String) :
    sliceFrom dir (dir.utf8ByteSize + 1) = Except.error Fault.sliceBounds := by
  simp [sliceFrom]

/-- C6, on the code: for the scan root itself, with package extraction
requested and module detection not requested, the slice expression
`dir[len(s.startDir)+1:]` is out of bounds and `scanDir` panics before it
calls `scanPackages`; so does the package-level `ScanDir`, whose scanner
starts at the directory it scans. -/
theorem C6_relative_path_of_root_panics (env : Env) (fuel : Nat) (s : scanner)
    (mode : ScanMode) (filter : ScannerFilter)
    (hp : mode.has ScanPackages = true) (hm : mode.has ScanModule = false) :
    s.packagesStep env s.startDir none = Except.error Fault.sliceBounds ∧
    scanner.scanDir env (fuel + 1) s s.startDir mode filter
      = Except.error Fault.sliceBounds ∧
    ∀ (path : String) (flt : Option ScannerFilter),
      ScanDir env (fuel + 1) path mode flt = Except.error Fault.sliceBounds := by
  have hstep : ∀ t : scanner, t.packagesStep env t.startDir none
      = Except.error Fault.sliceBounds := by
    intro t
    simp [scanner.packagesStep, hasPrefixStr_self, sliceFrom_past_end]
  have hdir : ∀ (t : scanner) (f : ScannerFilter),
      scanner.scanDir env (fuel + 1) t t.startDir mode f = Except.error Fault.sliceBounds := by
    intro t f
    simp [scanner.scanDir, hp, hm, hstep]
  refine ⟨hstep s, hdir s filter, ?_⟩
  intro path flt
  have hne : mode ≠ ScanNone := by
    intro h0
    rw [h0] at hp
    revert hp
    decide
  have := hdir { startDir := path, Modules := some [], Packages := some [] }
    (flt.getD ScanFilter)
  simp only [] at this
  simp [ScanDir, hne, this]

/-- C6 at `ScanDir("/repo", ScanPackages, nil)`. -/
theorem C6_relative_path_of_root_panics_witness :
    (ScanMode.has ScanPackages ScanPackages = true ∧
      ScanMode.has ScanPackages ScanModule = false) ∧
    ScanDir demoEnv 3 "/repo" ScanPackages none = Except.error Fault.sliceBounds :=
  ⟨by decide,
   (C6_relative_path_of_root_panics demoEnv 2 demoScanner ScanPackages ScanFilter
      (by decide) (by decide)).2.2 "/repo" none⟩

/-- C5: in a deep scan of `dir` whose own steps succeed, `scanDir` runs the
scan of every subdirectory that the filter accepts, once each and in listing
order, every scan on the scanner its predecessor left; a scan that returns
an error stops none of the scans after it.  The call returns as soon as all
of these scans have returned, with the scanner the last of them left and
the errors combined: the error is nil iff every scan returned nil, it
contains the error of every scan that failed, and the result set holds all
that any of the scans had collected when it returned. -/
theorem C5_deep_scan_aggregates_errors (env : Env) (fuel : Nat) (s s1 s2 : scanner)
    (dir : String) (mode : ScanMode) (filter : ScannerFilter) (mod : Option Module)
    (entries : List DirEntry)
    (hdeep : mode.has ScanDeep = true)
    (h1 : (if mode.has ScanModule then s.scanModule env dir else Except.ok (s, none, none))
      = Except.ok (s1, mod, none))
    (h2 : (if mode.has ScanPackages then s1.packagesStep env dir mod else Except.ok (s1, none))
      = Except.ok (s2, none))
    (hread : env.ReadDir dir = Except.ok entries)
    (hfilter : ∀ e ∈ entries, e.IsDir = true →
      ∃ b, filter (env.Join dir e.Name) e.Name e = Except.ok b) :
    scanner.scanDir env (fuel + 1) s dir mode filter =
      (match subScans (fun t p => scanner.scanDir env fuel t p mode filter)
          (passingPaths env dir filter entries) s2 with
       | Except.error f => Except.error f
       | Except.ok rs => Except.ok (lastScanner s2 rs, appendAll none rs)) ∧
    ∀ rs : List (scanner × Option Error),
      subScans (fun t p => scanner.scanDir env fuel t p mode filter)
        (passingPaths env dir filter entries) s2 = Except.ok rs →
      rs.length = (passingPaths env dir filter entries).length ∧
      (∀ (k : Nat) (p : String), (passingPaths env dir filter entries)[k]? = some p →
        ∃ r, rs[k]? = some r ∧
          scanner.scanDir env fuel (lastScanner s2 (rs.take k)) p mode filter = Except.ok r) ∧
      (appendAll none rs = none ↔ ∀ r ∈ rs, r.2 = none) ∧
      (∀ r ∈ rs, ∀ x : Error, r.2 = some x →
        ∃ e, appendAll none rs = some e ∧ e.contains x = true) ∧
      (∀ r ∈ rs, r.1.grows (lastScanner s2 rs)) ∧
      s.grows (lastScanner s2 rs) := by
  have hgrow : ∀ (a : scanner) (p : String) (b : scanner) (e : Option Error),
      (fun t q => scanner.scanDir env fuel t q mode filter) a p = Except.ok (b, e) →
      a.grows b :=
    fun a p b e hr => scanDir_grows env fuel a p mode filter b e hr
  constructor
  · rw [scanner.scanDir]
    simp only [h1, h2, hdeep, hread, if_true]
    exact scanEntries_eq_subScans env _ dir filter entries s2 none hfilter
  · intro rs hrs
    have g1 : s.grows s1 := by
      split at h1
      · exact scanModule_grows env s s1 dir _ _ h1
      · simp only [Except.ok.injEq, Prod.mk.injEq] at h1
        rw [← h1.1]
        exact grows_refl s
    have g2 : s1.grows s2 := by
      split at h2
      · exact packagesStep_grows env s1 s2 dir _ _ h2
      · simp only [Except.ok.injEq, Prod.mk.injEq] at h2
        rw [← h2.1]
        exact grows_refl s1
    obtain ⟨g3, g4⟩ := subScans_grows _ hgrow _ s2 rs hrs
    refine ⟨subScans_length _ _ s2 rs hrs, subScans_at _ _ s2 rs hrs, ?_, ?_, g4,
      grows_trans (grows_trans g1 g2) g3⟩
    · rw [appendAll_eq_none]
      simp
    · intro r hr x hx
      exact appendAll_contains rs none r x hr hx

/-- C5 at `/repo`, where the scan of `a` fails (no manifest) and the scan of
`b` succeeds: the Module of `b` is in the result and the error of `a` is
returned, with `a` listed before `b` and with `b` listed before `a`. -/
theorem C5_deep_scan_aggregates_errors_witness :
    (ScanMode.has ScanAllDeep ScanDeep = true ∧
      (if ScanMode.has ScanAllDeep ScanModule then demoScanner.scanModule demoEnv "/repo"
        else Except.ok (demoScanner, none, none))
        = Except.ok ({ demoScanner with Modules := some [demoRootModule] },
            some demoRootModule, none) ∧
      (if ScanMode.has ScanAllDeep ScanPackages then
          scanner.packagesStep demoEnv { demoScanner with Modules := some [demoRootModule] }
            "/repo" (some demoRootModule)
        else Except.ok ({ demoScanner with Modules := some [demoRootModule] }, none))
        = Except.ok ({ startDir := "/repo", Modules := some [demoRootModule],
                       Packages := some [demoPackage] }, none)) ∧
    scanner.scanDir demoEnv 3 demoScanner "/repo" ScanAllDeep ScanFilter =
      Except.ok ({ startDir := "/repo", Modules := some [demoRootModule, demoSubModule],
                   Packages := some [demoPackage] },
                 some (Error.traced (Error.notExist "/repo/a/go.mod"))) ∧
    scanner.scanDir demoEnvRev 3 demoScanner "/repo" ScanAllDeep ScanFilter =
      Except.ok ({ startDir := "/repo", Modules := some [demoRootModule, demoSubModule],
                   Packages := some [demoPackage] },
                 some (Error.traced (Error.notExist "/repo/a/go.mod"))) :=
  ⟨by decide,
   by
     rw [(C5_deep_scan_aggregates_errors demoEnv 2 demoScanner
          { demoScanner with Modules := some [demoRootModule] }
          { startDir := "/repo", Modules := some [demoRootModule],
            Packages := some [demoPackage] }
          "/repo" ScanAllDeep ScanFilter (some demoRootModule)
          [{ Name := ".git", IsDir := true }, { Name := "README.md", IsDir := false },
           { Name := "a", IsDir := true }, { Name := "b", IsDir := true },
           { Name := "internal", IsDir := true }]
          (by decide) (by decide) (by decide) (by decide)
          (by
            intro e he _
            simp only [List.mem_cons, List.mem_singleton, List.not_mem_nil, or_false] at he
            rcases he with rfl | rfl | rfl | rfl | rfl <;> exact ⟨_, rfl⟩)).1]
     decide,
   by
     rw [(C5_deep_scan_aggregates_errors demoEnvRev 2 demoScanner
          { demoScanner with Modules := some [demoRootModule] }
          { startDir := "/repo", Modules := some [demoRootModule],
            Packages := some [demoPackage] }
          "/repo" ScanAllDeep ScanFilter (some demoRootModule)
          [{ Name := "b", IsDir := true }, { Name := "a", IsDir := true }]
          (by decide) (by decide) (by decide) (by decide)
          (by
            intro e he _
            simp only [List.mem_cons, List.mem_singleton, List.not_mem_nil, or_false] at he
            rcases he with rfl | rfl <;> exact ⟨_, rfl⟩)).1]
     decide⟩

/-! ## Lemmas on single writes -/

/-- What one `Write` does to the Sections of the Package and to the pending
Section: either it stores the pending Section and starts a new one with the
fragment as Id, in state opId on a fragment consumed as id, or it keeps
the stored Sections and the Id of the pending Section and appends at most
one Block to it. -/
theorem Write_cases (unescape : String → String) (u : unmarshaler) (s : String) :
    (consumedAsId u.op s = true ∧
      (unmarshaler.Write unescape u s).pkg.Sections = u.pkg.Sections ++ [u.cur] ∧
      (unmarshaler.Write unescape u s).cur = NewSection s) ∨
    (consumedAsId u.op s = false ∧
      (unmarshaler.Write unescape u s).pkg.Sections = u.pkg.Sections ∧
      (unmarshaler.Write unescape u s).cur.Id = u.cur.Id ∧
      ((unmarshaler.Write unescape u s).cur.Blocks = u.cur.Blocks ∨
        ∃ b, (unmarshaler.Write unescape u s).cur.Blocks = u.cur.Blocks ++ [b])) := by
  rcases u with ⟨pkg, cur, o, line⟩
  by_cases h1 : s = "<h3 id=\""
  · right
    subst h1
    simp [unmarshaler.Write, consumedAsId, isControl]
  by_cases h2 : s = "<p>\n"
  · right
    subst h2
    simp [unmarshaler.Write, consumedAsId, isControl]
  by_cases h3 : s = "</p>\n"
  · right
    subst h3
    simp [unmarshaler.Write, consumedAsId, isControl]
  by_cases h4 : s = "<pre>"
  · right
    subst h4
    simp [unmarshaler.Write, consumedAsId, isControl]
  by_cases h5 : s = "</pre>\n"
  · right
    subst h5
    simp [unmarshaler.Write, consumedAsId, isControl]
  cases o with
  | opId =>
    by_cases h6 : s = "\">"
    · right
      subst h6
      simp [unmarshaler.Write, consumedAsId, isControl]
    · left
      simp [unmarshaler.Write, consumedAsId, isControl, h1, h2, h3, h4, h5, h6]
  | opHead =>
    right
    by_cases h7 : s = "</h3>\n"
    · subst h7
      simp [unmarshaler.Write, consumedAsId, isControl]
    · simp [unmarshaler.Write, consumedAsId, isControl, h1, h2, h3, h4, h5, h7]
  | opPara =>
    right
    simp [unmarshaler.Write, consumedAsId, isControl, h1, h2, h3, h4, h5]
  | opPre =>
    right
    simp [unmarshaler.Write, consumedAsId, isControl, h1, h2, h3, h4, h5]

/-- The state after a `Write` depends on the state before and the fragment
only. -/
theorem Write_op (unescape : String → String) (u : unmarshaler) (s : String) :
    (unmarshaler.Write unescape u s).op = opAfter u.op s := by
  rcases u with ⟨pkg, cur, o, line⟩
  cases o <;> simp only [unmarshaler.Write, opAfter] <;> split_ifs <;> rfl

/-- A `Write` leaves Name, Path and Module of the Package alone. -/
theorem Write_pkg_fields (unescape : String → String) (u : unmarshaler) (s : String) :
    (unmarshaler.Write unescape u s).pkg.Name = u.pkg.Name ∧
    (unmarshaler.Write unescape u s).pkg.Path = u.pkg.Path ∧
    (unmarshaler.Write unescape u s).pkg.Module = u.pkg.Module := by
  rcases u with ⟨pkg, cur, o, line⟩
  cases o <;> simp only [unmarshaler.Write] <;> split_ifs <;> exact ⟨rfl, rfl, rfl⟩

theorem Write_sections_grow (unescape : String → String) (u : unmarshaler) (s : String) :
    u.pkg.Sections <+: (unmarshaler.Write unescape u s).pkg.Sections := by
  rcases Write_cases unescape u s with ⟨_, h, _⟩ | ⟨_, h, _⟩
  · rw [h]
    exact List.prefix_append _ _
  · rw [h]

/-- Over a whole stream the stored Sections only grow at the end. -/
theorem feed_sections_grow (unescape : String → String) (frags : List String) :
    ∀ u : unmarshaler, u.pkg.Sections <+: (unmarshaler.feed unescape u frags).pkg.Sections := by
  induction frags with
  | nil => intro u; exact List.prefix_refl _
  | cons f fs ih =>
    intro u
    rw [feed_cons]
    exact (Write_sections_grow unescape u f).trans (ih _)

/-! ## Claims on single writes -/

/-- C15: in every state and for every fragment the Sections of the Package
before `Write` are a leading part of the Sections after it; either none is
appended or exactly one, the Section that was pending, as it stood, while a
new Section becomes pending.  When no Section is appended the pending
Section keeps its Id, its Blocks before are a leading part of its Blocks
after and at most one Block is appended.  Over any stream the stored
Sections therefore only grow at the end, in emission order. -/
theorem C15_write_is_append_only (unescape : String → String) (u : unmarshaler)
    (s : String) (frags : List String) :
    u.pkg.Sections <+: (unmarshaler.Write unescape u s).pkg.Sections ∧
    ((unmarshaler.Write unescape u s).pkg.Sections = u.pkg.Sections ∨
      ((unmarshaler.Write unescape u s).pkg.Sections = u.pkg.Sections ++ [u.cur] ∧
        (unmarshaler.Write unescape u s).cur = NewSection s)) ∧
    ((unmarshaler.Write unescape u s).pkg.Sections = u.pkg.Sections →
      (unmarshaler.Write unescape u s).cur.Id = u.cur.Id ∧
      u.cur.Blocks <+: (unmarshaler.Write unescape u s).cur.Blocks ∧
      ((unmarshaler.Write unescape u s).cur.Blocks = u.cur.Blocks ∨
        ∃ b, (unmarshaler.Write unescape u s).cur.Blocks = u.cur.Blocks ++ [b])) ∧
    u.pkg.Sections <+: (unmarshaler.feed unescape u frags).pkg.Sections := by
  refine ⟨Write_sections_grow unescape u s, ?_, ?_, feed_sections_grow unescape frags u⟩
  · rcases Write_cases unescape u s with ⟨_, h1, h2⟩ | ⟨_, h1, _⟩
    · exact Or.inr ⟨h1, h2⟩
    · exact Or.inl h1
  · intro hsame
    rcases Write_cases unescape u s with ⟨_, h1, _⟩ | ⟨_, _, h2, h3⟩
    · rw [h1] at hsame
      have hlen := congrArg List.length hsame
      simp at hlen
    · refine ⟨h2, ?_, h3⟩
      rcases h3 with h3 | ⟨b, h3⟩
      · rw [h3]
      · rw [h3]
        exact List.prefix_append _ _

/-- C16: in state opId, a fragment that is neither one of the five control
markers nor `">` makes `Write` append the pending Section to the Sections
of the Package and start a new pending Section with exactly that fragment
as Id, empty Heading and no Blocks, with state and line buffer unchanged;
the fragment `">` only changes the state to opHead.  The state after
`reset` is opId. -/
theorem C16_section_id_fragment (unescape : String → String) (u u0 : unmarshaler)
    (pkg : Package) (s : String)
    (hop : u.op = op.opId) (hs : isControl s = false) (hs2 : s ≠ "\">") :
    unmarshaler.Write unescape u s =
      { pkg := { u.pkg with Sections := u.pkg.Sections ++ [u.cur] },
        cur := { Id := s, Heading := "", Blocks := [] },
        op := op.opId,
        line := u.line } ∧
    unmarshaler.Write unescape u "\">" = { u with op := op.opHead } ∧
    (u0.reset pkg).op = op.opId := by
  rcases u with ⟨p, c, o, l⟩
  simp only [] at hop
  subst hop
  simp only [isControl, Bool.or_eq_false_iff, decide_eq_false_iff_not] at hs
  obtain ⟨⟨⟨⟨h1, h2⟩, h3⟩, h4⟩, h5⟩ := hs
  refine ⟨?_, ?_, rfl⟩
  · simp [unmarshaler.Write, NewSection, h1, h2, h3, h4, h5, hs2]
  · simp [unmarshaler.Write]

/-- C16 right after `reset`, at the fragment "intro". -/
theorem C16_section_id_fragment_witness :
    ((unmarshaler.zero.reset (NewPackage "foo" "" none)).op = op.opId ∧
      isControl "intro" = false ∧ "intro" ≠ "\">") ∧
    unmarshaler.Write unescapeBasic (unmarshaler.zero.reset (NewPackage "foo" "" none)) "intro" =
      { pkg := { Name := "foo", Path := "", Module := none,
                 Sections := [{ Id := "", Heading := "", Blocks := [] }] },
        cur := { Id := "intro", Heading := "", Blocks := [] },
        op := op.opId,
        line := "" } :=
  ⟨by decide,
   (C16_section_id_fragment unescapeBasic
      (unmarshaler.zero.reset (NewPackage "foo" "" none)) unmarshaler.zero
      (NewPackage "foo" "" none) "intro" (by decide) (by decide) (by decide)).1⟩

/-! ## Lemmas on whole streams -/

theorem Write_ids (unescape : String → String) (u : unmarshaler) (s : String) :
    ((unmarshaler.Write unescape u s).pkg.Sections ++
        [(unmarshaler.Write unescape u s).cur]).map Section.Id =
      (u.pkg.Sections ++ [u.cur]).map Section.Id ++
        (if consumedAsId u.op s then [s] else []) := by
  rcases Write_cases unescape u s with ⟨hc, h1, h2⟩ | ⟨hc, h1, h2, _⟩
  · rw [h1, h2, hc]
    simp [NewSection]
  · rw [h1, hc]
    simp [h2]

/-- The Ids of the stored Sections followed by the Id of the pending Section
are the Ids there were before the stream followed by the fragments the
stream had consumed as section ids. -/
theorem feed_ids (unescape : String → String) (frags : List String) :
    ∀ u : unmarshaler,
      ((unmarshaler.feed unescape u frags).pkg.Sections ++
          [(unmarshaler.feed unescape u frags).cur]).map Section.Id =
        (u.pkg.Sections ++ [u.cur]).map Section.Id ++ idFragments u.op frags := by
  induction frags with
  | nil =>
    intro u
    simp [feed_nil, idFragments]
  | cons f fs ih =>
    intro u
    rw [feed_cons, ih, Write_ids, Write_op, idFragments]
    split <;> simp

/-- The heading group of a section, received with an empty line buffer in
any state: the pending Section is stored and the new pending Section has
the id and the heading. -/
theorem feed_heading (unescape : String → String) (u : unmarshaler) (i h : String)
    (hline : u.line = "")
    (hi : isControl i = false) (hi2 : i ≠ "\">")
    (hh : isControl h = false) (hh2 : h ≠ "</h3>\n") (hhu : unescape h = h) :
    unmarshaler.feed unescape u ["<h3 id=\"", i, "\">", h, "</h3>\n"] =
      { pkg := { u.pkg with Sections := u.pkg.Sections ++ [u.cur] },
        cur := { Id := i, Heading := h, Blocks := [] },
        op := op.opHead,
        line := "" } := by
  rcases u with ⟨p, c, o, l⟩
  simp only [] at hline
  subst hline
  simp only [isControl, Bool.or_eq_false_iff, decide_eq_false_iff_not] at hi hh
  obtain ⟨⟨⟨⟨i1, i2⟩, i3⟩, i4⟩, i5⟩ := hi
  obtain ⟨⟨⟨⟨h1, h2⟩, h3⟩, h4⟩, h5⟩ := hh
  simp [unmarshaler.feed, unmarshaler.Write, NewSection,
    i1, i2, i3, i4, i5, hi2, h1, h2, h3, h4, h5, hh2, hhu, str_nil_append]

/-- One headed section of the renderer, received with an empty line buffer:
the pending Section is stored and the new pending Section is the section
received. -/
theorem feed_section (unescape : String → String) (u : unmarshaler) (sec : Section)
    (hline : u.line = "") (hsec : sec.plain unescape) :
    (unmarshaler.feed unescape u (sectionFrags sec)).pkg.Sections =
      u.pkg.Sections ++ [u.cur] ∧
    (unmarshaler.feed unescape u (sectionFrags sec)).cur = sec ∧
    (unmarshaler.feed unescape u (sectionFrags sec)).line = "" := by
  obtain ⟨hi, hi2, hh, hh2, hhu, hbs⟩ := hsec
  rw [sectionFrags, feed_append, feed_heading unescape u _ _ hline hi hi2 hh hh2 hhu]
  obtain ⟨h1, h2, h3⟩ := feed_blocks unescape sec.Blocks
    { pkg := { u.pkg with Sections := u.pkg.Sections ++ [u.cur] },
      cur := { Id := sec.Id, Heading := sec.Heading, Blocks := [] },
      op := op.opHead,
      line := "" } rfl hbs
  rw [h1, h2, h3]
  simp

/-- A run of headed sections, received with an empty line buffer: the stored
Sections followed by the pending one are those from before followed by the
sections received. -/
theorem feed_sections (unescape : String → String) (secs : List Section) :
    ∀ u : unmarshaler, u.line = "" → (∀ sec ∈ secs, sec.plain unescape) →
      (unmarshaler.feed unescape u (secs.flatMap sectionFrags)).pkg.Sections ++
          [(unmarshaler.feed unescape u (secs.flatMap sectionFrags)).cur] =
        u.pkg.Sections ++ u.cur :: secs ∧
      (unmarshaler.feed unescape u (secs.flatMap sectionFrags)).line = "" := by
  induction secs with
  | nil =>
    intro u hline _
    simp [feed_nil, hline]
  | cons sec secs ih =>
    intro u hline hsecs
    obtain ⟨h1, h2, h3⟩ := feed_section unescape u sec hline
      (hsecs sec (List.mem_cons_self sec secs))
    obtain ⟨h4, h5⟩ := ih (unmarshaler.feed unescape u (sectionFrags sec)) h3
      (fun x hx => hsecs x (List.mem_cons_of_mem sec hx))
    rw [List.flatMap_cons, feed_append]
    refine ⟨?_, h5⟩
    rw [h4, h1, h2]
    simp

/-- A whole documentation text of the renderer, leading blocks and then
headed sections, received after `reset`: the stored Sections followed by
the pending one are the unnamed Section of the leading blocks followed by
the headed sections. -/
theorem feed_document (unescape : String → String) (u0 : unmarshaler) (pkg : Package)
    (lead : List Block) (secs : List Section)
    (hlead : ∀ b ∈ lead, isControl b.text = false ∧ unescape b.text = b.text)
    (hsecs : ∀ sec ∈ secs, sec.plain unescape) :
    (unmarshaler.feed unescape (u0.reset pkg)
        (lead.flatMap blockFrags ++ secs.flatMap sectionFrags)).pkg.Sections ++
      [(unmarshaler.feed unescape (u0.reset pkg)
        (lead.flatMap blockFrags ++ secs.flatMap sectionFrags)).cur] =
      pkg.Sections ++ { Id := "", Heading := "", Blocks := lead } :: secs := by
  obtain ⟨h1, h2, h3⟩ := feed_blocks unescape lead (u0.reset pkg) rfl hlead
  obtain ⟨h4, _⟩ := feed_sections unescape secs
    (unmarshaler.feed unescape (u0.reset pkg) (lead.flatMap blockFrags)) h3 hsecs
  rw [feed_append, h4, h1, h2]
  simp [unmarshaler.reset, NewSection]

/-! ## Claims on whole streams -/

/-- C18: for every stream fed after `reset` on a new Package, the Ids of the
stored Sections followed by the Id of the pending Section are the empty Id
of the Section made by `reset` followed by the fragments consumed as section
ids, in order: there are as many stored Sections as id fragments, the first
stored Section has the empty Id, and the pending Section is the one made for
the last id fragment, after all stored ones.  For the stream of leading
blocks and `k` headed sections the stored Sections followed by the pending
one are the unnamed Section of the leading blocks followed by the headed
sections: `k` Sections are stored, none when there is no heading, else the
unnamed Section and the first `k - 1` headed ones. -/
theorem C18_stored_sections_count_ids (unescape : String → String) (u0 : unmarshaler)
    (name path : String) (mod : Option Module) (frags : List String)
    (lead : List Block) (secs : List Section)
    (hlead : ∀ b ∈ lead, isControl b.text = false ∧ unescape b.text = b.text)
    (hsecs : ∀ sec ∈ secs, sec.plain unescape) :
    ((unmarshaler.feed unescape (u0.reset (NewPackage name path mod)) frags).pkg.Sections ++
        [(unmarshaler.feed unescape (u0.reset (NewPackage name path mod)) frags).cur]).map
        Section.Id = "" :: idFragments op.opId frags ∧
    (unmarshaler.feed unescape (u0.reset (NewPackage name path mod)) frags).pkg.Sections.length
      = (idFragments op.opId frags).length ∧
    (∀ sec, (unmarshaler.feed unescape (u0.reset (NewPackage name path mod))
        frags).pkg.Sections.head? = some sec → sec.Id = "") ∧
    (unmarshaler.feed unescape (u0.reset (NewPackage name path mod))
        (lead.flatMap blockFrags ++ secs.flatMap sectionFrags)).pkg.Sections ++
      [(unmarshaler.feed unescape (u0.reset (NewPackage name path mod))
        (lead.flatMap blockFrags ++ secs.flatMap sectionFrags)).cur] =
      { Id := "", Heading := "", Blocks := lead } :: secs ∧
    (unmarshaler.feed unescape (u0.reset (NewPackage name path mod))
        (lead.flatMap blockFrags ++ secs.flatMap sectionFrags)).pkg.Sections.length
      = secs.length ∧
    (secs = [] →
      (unmarshaler.feed unescape (u0.reset (NewPackage name path mod))
        (lead.flatMap blockFrags ++ secs.flatMap sectionFrags)).pkg.Sections = []) ∧
    (secs ≠ [] →
      (unmarshaler.feed unescape (u0.reset (NewPackage name path mod))
        (lead.flatMap blockFrags ++ secs.flatMap sectionFrags)).pkg.Sections =
        { Id := "", Heading := "", Blocks := lead } :: secs.dropLast) := by
  have hids := feed_ids unescape frags (u0.reset (NewPackage name path mod))
  have hstart : ((u0.reset (NewPackage name path mod)).pkg.Sections ++
      [(u0.reset (NewPackage name path mod)).cur]).map Section.Id = [""] := rfl
  rw [hstart] at hids
  have hop : (u0.reset (NewPackage name path mod)).op = op.opId := rfl
  rw [hop] at hids
  have hdoc := feed_document unescape u0 (NewPackage name path mod) lead secs hlead hsecs
  have hnil : (NewPackage name path mod).Sections = [] := rfl
  rw [hnil] at hdoc
  simp only [List.nil_append] at hdoc
  refine ⟨by simpa using hids, ?_, ?_, hdoc, ?_, ?_, ?_⟩
  · have hlen := congrArg List.length hids
    simp only [List.length_map, List.length_append, List.length_singleton,
      List.length_cons, List.length_nil] at hlen
    omega
  · intro sec hsec
    cases hS : (unmarshaler.feed unescape (u0.reset (NewPackage name path mod))
        frags).pkg.Sections with
    | nil =>
      rw [hS] at hsec
      cases hsec
    | cons x rest =>
      rw [hS] at hsec hids
      simp only [List.head?_cons, Option.some.injEq] at hsec
      subst hsec
      simp only [List.cons_append, List.map_cons, List.singleton_append,
        List.cons.injEq] at hids
      exact hids.1
  · have hlen := congrArg List.length hdoc
    simp only [List.length_append, List.length_singleton, List.length_cons,
      List.length_nil] at hlen
    omega
  · intro hempty
    rw [hempty] at hdoc ⊢
    have hlen := congrArg List.length hdoc
    simp only [List.length_append, List.length_singleton, List.length_cons,
      List.length_nil] at hlen
    exact List.eq_nil_of_length_eq_zero (by omega)
  · intro hne
    have hd := congrArg List.dropLast hdoc
    rw [List.dropLast_concat, List.dropLast_cons_of_ne_nil hne] at hd
    exact hd

/-- C18 at a text with one leading paragraph and the two headed sections
"intro" and "usage": two Sections are stored, the unnamed one and "intro",
and the Section "usage" is pending. -/
theorem C18_stored_sections_count_ids_witness :
    (unmarshaler.feed unescapeBasic (unmarshaler.zero.reset (NewPackage "foo" "" none))
        ([Block.ParaBlock "Package foo."].flatMap blockFrags ++
          [{ Id := "intro", Heading := "Intro", Blocks := [Block.ParaBlock "First."] },
           { Id := "usage", Heading := "Usage", Blocks := [Block.PreBlock "code"] }].flatMap
            sectionFrags)).pkg.Sections =
      [{ Id := "", Heading := "", Blocks := [Block.ParaBlock "Package foo."] },
       { Id := "intro", Heading := "Intro", Blocks := [Block.ParaBlock "First."] }] :=
  (C18_stored_sections_count_ids unescapeBasic unmarshaler.zero "foo" "" none []
    [Block.ParaBlock "Package foo."]
    [{ Id := "intro", Heading := "Intro", Blocks := [Block.ParaBlock "First."] },
     { Id := "usage", Heading := "Usage", Blocks := [Block.PreBlock "code"] }]
    (by decide)
    (by
      intro sec hsec
      simp only [List.mem_cons, List.mem_singleton, List.not_mem_nil, or_false] at hsec
      rcases hsec with rfl | rfl <;> exact ⟨by decide, by decide, by decide, by decide,
        by decide, by decide⟩)).2.2.2.2.2.2 (by decide)

/-! ## Claims on the accessors of the Package -/

/-- C19: `Synopsis` returns exactly when the Package has a Section 0 and
that Section has a Block 0, and its value is then `doc.Synopsis` of the text
of that Block, whatever the variant of the Block and whatever else the
Package holds; with no Sections, or with no Blocks in Section 0, the index
expression panics.  This is the case for a Package as `NewPackage` returns
it and for a Package filled from a stream that begins with a heading group,
however the stream goes on. -/
theorem C19_synopsis_needs_first_block (synopsis unescape : String → String)
    (p : Package) (u0 : unmarshaler) (name path : String) (mod : Option Module)
    (i : String) (rest : List String)
    (hi : isControl i = false) (hi2 : i ≠ "\">") :
    ((∃ v, p.Synopsis synopsis = Except.ok v) ↔
      ∃ sec, p.Sections.head? = some sec ∧ ∃ b, sec.Blocks.head? = some b) ∧
    (∀ sec b, p.Sections.head? = some sec → sec.Blocks.head? = some b →
      p.Synopsis synopsis = Except.ok (synopsis b.text)) ∧
    (p.Sections = [] → p.Synopsis synopsis = Except.error Fault.indexOutOfRange) ∧
    (∀ sec, p.Sections.head? = some sec → sec.Blocks = [] →
      p.Synopsis synopsis = Except.error Fault.indexOutOfRange) ∧
    (NewPackage name path mod).Synopsis synopsis = Except.error Fault.indexOutOfRange ∧
    (unmarshaler.feed unescape (u0.reset (NewPackage name path mod))
        ("<h3 id=\"" :: i :: rest)).pkg.Synopsis synopsis
      = Except.error Fault.indexOutOfRange := by
  refine ⟨?_, ?_, ?_, ?_, rfl, ?_⟩
  · rcases p with ⟨n, pa, m, secs⟩
    cases secs with
    | nil => simp [Package.Synopsis]
    | cons sec tl =>
      rcases sec with ⟨si, sh, bs⟩
      cases bs with
      | nil => simp [Package.Synopsis]
      | cons b bt => simp [Package.Synopsis]
  · intro sec b h1 h2
    rcases p with ⟨n, pa, m, secs⟩
    cases secs with
    | nil => simp at h1
    | cons sec0 tl =>
      simp only [List.head?_cons, Option.some.injEq] at h1
      subst h1
      rcases sec0 with ⟨si, sh, bs⟩
      cases bs with
      | nil => simp at h2
      | cons b0 bt =>
        simp only [List.head?_cons, Option.some.injEq] at h2
        subst h2
        rfl
  · intro h
    simp [Package.Synopsis, h]
  · intro sec h1 h2
    rcases p with ⟨n, pa, m, secs⟩
    cases secs with
    | nil => simp at h1
    | cons sec0 tl =>
      simp only [List.head?_cons, Option.some.injEq] at h1
      subst h1
      simp [Package.Synopsis, h2]
  · have hstart : unmarshaler.feed unescape (u0.reset (NewPackage name path mod))
        ["<h3 id=\"", i] =
        { pkg := { NewPackage name path mod with Sections := [NewSection ""] },
          cur := NewSection i, op := op.opId, line := "" } := by
      simp only [isControl, Bool.or_eq_false_iff, decide_eq_false_iff_not] at hi
      obtain ⟨⟨⟨⟨i1, i2⟩, i3⟩, i4⟩, i5⟩ := hi
      simp [unmarshaler.feed, unmarshaler.Write, unmarshaler.reset, NewPackage,
        i1, i2, i3, i4, i5, hi2]
    have hsplit : ("<h3 id=\"" :: i :: rest) = ["<h3 id=\"", i] ++ rest := rfl
    rw [hsplit, feed_append, hstart]
    obtain ⟨t, ht⟩ := feed_sections_grow unescape rest
      { pkg := { NewPackage name path mod with Sections := [NewSection ""] },
        cur := NewSection i, op := op.opId, line := "" }
    simp only [List.singleton_append] at ht
    unfold Package.Synopsis
    rw [← ht]
    rfl

/-- C19 at the stream of the heading "Overview" with one paragraph: Section
0 of the Package is the Section without Blocks and the lookup fails. -/
theorem C19_synopsis_needs_first_block_witness :
    (isControl "intro" = false ∧ "intro" ≠ "\">") ∧
    (unmarshaler.feed unescapeBasic (unmarshaler.zero.reset (NewPackage "foo" "" none))
        ("<h3 id=\"" :: "intro" ::
          ["\">", "Overview", "</h3>\n", "<p>\n", "First.", "</p>\n"])).pkg.Synopsis
        (fun t => t)
      = Except.error Fault.indexOutOfRange :=
  ⟨by decide,
   (C19_synopsis_needs_first_block (fun t => t) unescapeBasic (NewPackage "foo" "" none)
      unmarshaler.zero "foo" "" none "intro"
      ["\">", "Overview", "</h3>\n", "<p>\n", "First.", "</p>\n"]
      (by decide) (by decide)).2.2.2.2.2⟩

/-! ## Lemmas on relations kept by a scan -/

theorem scanModule_rel (env : Env) (R : scanner → scanner → Prop)
    (hrefl : ∀ s, R s s)
    (hmod : ∀ (s : scanner) (m : Module) (dir : String),
      m.FilePath = env.Join dir "go.mod" → R s { s with Modules := goAppend s.Modules m })
    (s t : scanner) (dir : String) (m : Option Module) (e : Option Error)
    (h : s.scanModule env dir = Except.ok (t, m, e)) : R s t := by
  unfold scanner.scanModule at h
  simp only [] at h
  split at h
  · cases h
    exact hrefl s
  · split at h
    · split at h <;> cases h <;> exact hrefl s
    · split at h
      · cases h
      · cases h
        exact hmod s _ dir rfl

theorem scanPackagesLoop_rel (env : Env) (R : scanner → scanner → Prop)
    (hrefl : ∀ s, R s s) (htrans : ∀ s t u, R s t → R t u → R s u)
    (hpkg : ∀ (s : scanner) (pkg : Package),
      R s { s with Packages := goAppend s.Packages pkg })
    (path : String) (mod : Option Module) (pkgs : List AstPackage) :
    ∀ (s : scanner) (uw : unmarshaler),
      R s (scanner.scanPackagesLoop env path mod pkgs s uw).1 := by
  induction pkgs with
  | nil =>
    intro s uw
    exact hrefl s
  | cons p rest ih =>
    intro s uw
    unfold scanner.scanPackagesLoop
    simp only []
    split
    · exact hrefl s
    · exact htrans _ _ _ (hpkg s _) (ih _ _)

theorem packagesStep_rel (env : Env) (R : scanner → scanner → Prop)
    (hrefl : ∀ s, R s s) (htrans : ∀ s t u, R s t → R t u → R s u)
    (hpkg : ∀ (s : scanner) (pkg : Package),
      R s { s with Packages := goAppend s.Packages pkg })
    (s t : scanner) (dir : String) (mod : Option Module) (e : Option Error)
    (h : s.packagesStep env dir mod = Except.ok (t, e)) : R s t := by
  unfold scanner.packagesStep at h
  simp only [] at h
  split at h
  · cases h
  · rename_i p hp
    have h2 : R s (s.scanPackages env dir p mod).1 := by
      unfold scanner.scanPackages
      split
      · exact hrefl s
      · exact scanPackagesLoop_rel env R hrefl htrans hpkg p mod _ s _
    simp only [Except.ok.injEq] at h
    rw [h] at h2
    exact h2

theorem scanEntries_rel (env : Env) (R : scanner → scanner → Prop)
    (hrefl : ∀ s, R s s) (htrans : ∀ s t u, R s t → R t u → R s u)
    (recur : scanner → String → Except Fault (scanner × Option Error))
    (hrecur : ∀ s p t e, recur s p = Except.ok (t, e) → R s t)
    (dir : String) (filter : ScannerFilter) (entries : List DirEntry) :
    ∀ (s : scanner) (acc : Option Error) (t : scanner) (e : Option Error),
      scanner.scanEntries env recur dir filter entries s acc = Except.ok (t, e) →
      R s t := by
  induction entries with
  | nil =>
    intro s acc t e h
    simp only [scanner.scanEntries, Except.ok.injEq, Prod.mk.injEq] at h
    rw [← h.1]
    exact hrefl s
  | cons en rest ih =>
    intro s acc t e h
    rw [scanner.scanEntries] at h
    split at h
    · exact ih s acc t e h
    · simp only [] at h
      split at h
      · cases h
      · exact ih s acc t e h
      · split at h
        · cases h
        · rename_i s1 err hr
          exact htrans _ _ _ (hrecur _ _ _ _ hr) (ih s1 _ t e h)

/-- A relation between scanners that is reflexive and transitive and holds
whenever a Module read from a manifest or a Package is appended holds
between the scanner before a scan and the scanner after it. -/
theorem scanDir_rel (env : Env) (R : scanner → scanner → Prop)
    (hrefl : ∀ s, R s s) (htrans : ∀ s t u, R s t → R t u → R s u)
    (hmod : ∀ (s : scanner) (m : Module) (dir : String),
      m.FilePath = env.Join dir "go.mod" → R s { s with Modules := goAppend s.Modules m })
    (hpkg : ∀ (s : scanner) (pkg : Package),
      R s { s with Packages := goAppend s.Packages pkg })
    (fuel : Nat) :
    ∀ (s : scanner) (dir : String) (mode : ScanMode) (filter : ScannerFilter)
      (t : scanner) (e : Option Error),
      scanner.scanDir env fuel s dir mode filter = Except.ok (t, e) → R s t := by
  induction fuel with
  | zero =>
    intro s dir mode filter t e h
    simp [scanner.scanDir] at h
  | succ fuel ih =>
    intro s dir mode filter t e h
    rw [scanner.scanDir] at h
    simp only [] at h
    have step1 : ∀ (s1 : scanner) (m : Option Module) (err : Option Error),
        (if mode.has ScanModule then s.scanModule env dir else Except.ok (s, none, none))
          = Except.ok (s1, m, err) → R s s1 := by
      intro s1 m err h1
      split at h1
      · exact scanModule_rel env R hrefl hmod s s1 dir _ _ h1
      · simp only [Except.ok.injEq, Prod.mk.injEq] at h1
        rw [← h1.1]
        exact hrefl s
    have step2 : ∀ (s1 s2 : scanner) (m : Option Module) (err : Option Error),
        (if mode.has ScanPackages then s1.packagesStep env dir m else Except.ok (s1, none))
          = Except.ok (s2, err) → R s1 s2 := by
      intro s1 s2 m err h2
      split at h2
      · exact packagesStep_rel env R hrefl htrans hpkg s1 s2 dir _ _ h2
      · simp only [Except.ok.injEq, Prod.mk.injEq] at h2
        rw [← h2.1]
        exact hrefl s1
    split at h
    · cases h
    · rename_i s1 m err h1
      simp only [Except.ok.injEq, Prod.mk.injEq] at h
      rw [← h.1]
      exact step1 _ _ _ h1
    · rename_i s1 m h1
      have g1 := step1 _ _ _ h1
      split at h
      · cases h
      · rename_i s2 err h2
        simp only [Except.ok.injEq, Prod.mk.injEq] at h
        rw [← h.1]
        exact htrans _ _ _ g1 (step2 _ _ _ _ h2)
      · rename_i s2 h2
        have g2 := step2 _ _ _ _ h2
        split at h
        · split at h
          · simp only [Except.ok.injEq, Prod.mk.injEq] at h
            rw [← h.1]
            exact htrans _ _ _ g1 g2
          · exact htrans _ _ _ (htrans _ _ _ g1 g2)
              (scanEntries_rel env R hrefl htrans _
                (fun a p b c hr => ih a p mode filter b c hr) dir filter _ s2 none t e h)
        · simp only [Except.ok.injEq, Prod.mk.injEq] at h
          rw [← h.1]
          exact htrans _ _ _ g1 g2

/-! ## Lemmas on initialisation -/

theorem init_true_iff (s : scanner) :
    s.init.2 = true ↔ s.Modules = none ∧ s.Packages = none := by
  rcases s with ⟨d, ms, ps⟩
  cases ms <;> cases ps <;> simp [scanner.init]

theorem init_of_initialised (s : scanner) (h : s.initialised = true) :
    s.init = (s, false) := by
  unfold scanner.initialised at h
  simp [scanner.init, h]

theorem init_of_not_initialised (s : scanner) (h : s.initialised = false) :
    s.init = ({ s with Modules := some [], Packages := some [] }, true) := by
  unfold scanner.initialised at h
  simp [scanner.init, h]

theorem init_initialised (s : scanner) : s.init.1.initialised = true := by
  cases h : s.initialised with
  | true => rw [init_of_initialised s h]; exact h
  | false => rw [init_of_not_initialised s h]; rfl

theorem init_grows (s : scanner) : s.grows s.init.1 := by
  cases h : s.initialised with
  | true => rw [init_of_initialised s h]; exact grows_refl s
  | false =>
    rw [init_of_not_initialised s h]
    rcases s with ⟨d, ms, ps⟩
    cases ms <;> cases ps <;> simp [scanner.initialised] at h
    exact ⟨rfl, List.prefix_refl _, List.prefix_refl _⟩

/-- A scan leaves an initialised scanner initialised. -/
theorem scanDir_keeps_initialised (env : Env) (fuel : Nat) (s : scanner) (dir : String)
    (mode : ScanMode) (filter : ScannerFilter) (t : scanner) (e : Option Error)
    (h : scanner.scanDir env fuel s dir mode filter = Except.ok (t, e))
    (hs : s.initialised = true) : t.initialised = true :=
  scanDir_rel env (fun a b => a.initialised = true → b.initialised = true)
    (fun _ ha => ha) (fun _ _ _ h1 h2 ha => h2 (h1 ha))
    (fun _ _ _ _ _ => by simp [scanner.initialised, goAppend])
    (fun _ _ _ => by simp [scanner.initialised, goAppend])
    fuel s dir mode filter t e h hs

/-- On an initialised scanner every `init` of a sequence of calls returns
false. -/
theorem runCalls_initialised (env : Env) (fuel : Nat) (calls : List scannerCall) :
    ∀ (s t : scanner) (bs : List Bool), s.initialised = true →
      runCalls env fuel calls s = Except.ok (t, bs) → ∀ b ∈ bs, b = false := by
  induction calls with
  | nil =>
    intro s t bs _ h b hb
    simp only [runCalls, Except.ok.injEq, Prod.mk.injEq] at h
    rw [← h.2] at hb
    cases hb
  | cons c rest ih =>
    intro s t bs hs h b hb
    cases c with
    | init =>
      rw [runCalls] at h
      split at h
      · cases h
      · rename_i t1 bs1 hr
        simp only [Except.ok.injEq, Prod.mk.injEq] at h
        rw [← h.2] at hb
        rw [init_of_initialised s hs] at hr hb
        rcases List.mem_cons.mp hb with hb | hb
        · exact hb
        · exact ih s t1 bs1 hs hr b hb
    | scanDir dir mode filter =>
      rw [runCalls] at h
      split at h
      · cases h
      · rename_i s1 err hr
        exact ih s1 t bs (scanDir_keeps_initialised env fuel s dir mode filter s1 err hr hs)
          h b hb

/-- In a sequence of calls on one scanner only the first `init` can return
true. -/
theorem runCalls_first_only (env : Env) (fuel : Nat) (calls : List scannerCall) :
    ∀ (s t : scanner) (bs : List Bool),
      runCalls env fuel calls s = Except.ok (t, bs) → ∀ b ∈ bs.tail, b = false := by
  induction calls with
  | nil =>
    intro s t bs h b hb
    simp only [runCalls, Except.ok.injEq, Prod.mk.injEq] at h
    rw [← h.2] at hb
    cases hb
  | cons c rest ih =>
    intro s t bs h b hb
    cases c with
    | init =>
      rw [runCalls] at h
      split at h
      · cases h
      · rename_i t1 bs1 hr
        simp only [Except.ok.injEq, Prod.mk.injEq] at h
        rw [← h.2] at hb
        simp only [List.tail_cons] at hb
        exact runCalls_initialised env fuel rest s.init.1 t1 bs1 (init_initialised s) hr b hb
    | scanDir dir mode filter =>
      rw [runCalls] at h
      split at h
      · cases h
      · rename_i s1 err hr
        exact ih s1 t bs h b hb

/-! ## Claims on modes, paths and initialisation -/

/-- C11: with the mode `ScanNone` the package-level `ScanDir` returns no
modules, no packages and a nil error; `Generator.ScanDir` returns a nil
error and the Generator as it was, its scanner not even initialised;
`ScanNone.has(f)` is false for every flag `f`, and `scanner.scanDir` runs
none of its three steps and returns nil with the scanner unchanged. -/
theorem C11_scan_none_does_nothing (env : Env) (genv : GenEnv) (fuel : Nat)
    (path dir sdir : String) (filter gfilter : Option ScannerFilter)
    (sfilter : ScannerFilter) (g : Generator) (s : scanner) :
    ScanDir env fuel path ScanNone filter = Except.ok (none, none, none) ∧
    Generator.ScanDir env genv fuel g dir ScanNone gfilter = Except.ok (g, none) ∧
    (∀ f : ScanMode, ScanMode.has ScanNone f = false) ∧
    scanner.scanDir env (fuel + 1) s sdir ScanNone sfilter = Except.ok (s, none) := by
  have hhas : ∀ f : ScanMode, ScanMode.has ScanNone f = false := by
    intro f
    simp [ScanMode.has, ScanNone]
  refine ⟨?_, ?_, hhas, ?_⟩
  · simp [ScanDir]
  · simp [Generator.ScanDir]
  · simp [scanner.scanDir, hhas]

/-- C12: the import path of a Package without Module is its Path; with a
Module and a Path that is "", "." or "./" it is the path of the Module;
with a Module and any other Path it is `path.Join` of the path of the
Module and the Path. -/
theorem C12_import_path (env : Env) (p : Package) :
    (p.Module = none → p.ImportPath env = p.Path) ∧
    (∀ m : Module, p.Module = some m → (p.Path = "" ∨ p.Path = "." ∨ p.Path = "./") →
      p.ImportPath env = m.Version.Path) ∧
    (∀ m : Module, p.Module = some m → ¬ (p.Path = "" ∨ p.Path = "." ∨ p.Path = "./") →
      p.ImportPath env = env.pathJoin m.Version.Path p.Path) := by
  refine ⟨?_, ?_, ?_⟩
  · intro h
    simp [Package.ImportPath, pkgImportPath, h]
  · intro m h hp
    have he : isEmptyPath p.Path = true := by
      simp only [isEmptyPath, Bool.or_eq_true, decide_eq_true_eq]
      tauto
    simp [Package.ImportPath, pkgImportPath, h, he]
  · intro m h hp
    have he : isEmptyPath p.Path = false := by
      cases hb : isEmptyPath p.Path with
      | false => rfl
      | true =>
        simp only [isEmptyPath, Bool.or_eq_true, decide_eq_true_eq] at hb
        exact absurd (by tauto) hp
    simp [Package.ImportPath, pkgImportPath, h, he]

/-- C12 at the Module path "example.com/m" and the Package Path "". -/
theorem C12_import_path_witness :
    Package.ImportPath demoEnv demoPackage = "example.com/m" :=
  (C12_import_path demoEnv demoPackage).2.1 demoRootModule rfl (Or.inl rfl)

/-- C13 as stated fails: on the empty name the default filter does not
return a boolean, the index expression `name[0]` panics. -/
theorem C13_empty_name_counterexample :
    ScanFilter "/repo" "" { Name := "", IsDir := true }
      = Except.error Fault.indexOutOfRange ∧
    ¬ ∃ b : Bool, ScanFilter "/repo" "" { Name := "", IsDir := true } = Except.ok b := by
  refine ⟨by decide, ?_⟩
  rintro ⟨b, hb⟩
  revert hb
  cases b <;> decide

/-- C13, amended: the default filter returns a boolean, without failing, on
every non-empty name, for any path and entry; the empty name is outside
what it handles, `name[0]` being evaluated unguarded. -/
theorem C13_filter_total_on_nonempty_names (path name : String) (entry : DirEntry)
    (hne : name ≠ "") :
    (∃ b : Bool, ScanFilter path name entry = Except.ok b) ∧
    ∀ (p : String) (e : DirEntry), ScanFilter p "" e = Except.error Fault.indexOutOfRange := by
  obtain ⟨v, hv, _⟩ := ScanFilter_nonempty path name entry hne
  refine ⟨⟨v, hv⟩, ?_⟩
  intro p e
  simp [ScanFilter, byteAt_zero_empty]

/-- C13 amended, at the name "cmd". -/
theorem C13_filter_total_on_nonempty_names_witness :
    "cmd" ≠ "" ∧
    ∃ b : Bool, ScanFilter "/repo/cmd" "cmd" { Name := "cmd", IsDir := true } = Except.ok b :=
  ⟨by decide,
   (C13_filter_total_on_nonempty_names "/repo/cmd" "cmd" { Name := "cmd", IsDir := true }
      (by decide)).1⟩

/-- C14: `init` returns true exactly when Modules and Packages are both
nil, and then makes both present and empty; otherwise it returns false and
leaves the scanner as it was.  In any sequence of `init` and `scanDir`
calls on one scanner only the first `init` can return true.  `Generate`
runs its scan of the start directory with `ScanAllDeep` exactly when the
scanner is not yet initialised; after a `Generator.ScanDir` with a mode
other than `ScanNone` the scanner is initialised, and that scan appends to
the collections the scanner already held. -/
theorem C14_init_is_one_shot (env : Env) (genv : GenEnv) (fuel : Nat) (s : scanner)
    (calls : List scannerCall) (g : Generator) (dir : String) (mode : ScanMode)
    (gfilter : Option ScannerFilter) :
    (s.init.2 = true ↔ s.Modules = none ∧ s.Packages = none) ∧
    (s.init.2 = true → s.init.1 = { s with Modules := some [], Packages := some [] }) ∧
    (s.init.2 = false → s.init.1 = s) ∧
    s.init.1.init.2 = false ∧
    (∀ (t : scanner) (bs : List Bool),
      runCalls env fuel calls s = Except.ok (t, bs) → ∀ b ∈ bs.tail, b = false) ∧
    (g.scanner.initialised = true → g.generateScan env fuel = Except.ok (g, none)) ∧
    (g.scanner.initialised = false →
      g.generateScan env fuel =
        match scanner.scanDir env fuel
            { g.scanner with Modules := some [], Packages := some [] }
            g.scanner.startDir ScanAllDeep (callFilter g.filter) with
        | Except.error f => Except.error f
        | Except.ok (s1, err) => Except.ok ({ g with scanner := s1 }, err)) ∧
    (∀ (g1 : Generator) (e : Option Error), mode ≠ ScanNone →
      Generator.ScanDir env genv fuel g dir mode gfilter = Except.ok (g1, e) →
      g1.scanner.initialised = true ∧ g.scanner.grows g1.scanner ∧
      g1.generateScan env fuel = Except.ok (g1, none)) := by
  have hgen : ∀ g0 : Generator, g0.scanner.initialised = true →
      g0.generateScan env fuel = Except.ok (g0, none) := by
    intro g0 h
    simp [Generator.generateScan, init_of_initialised g0.scanner h]
  refine ⟨init_true_iff s, ?_, ?_, ?_, runCalls_first_only env fuel calls s, hgen g, ?_, ?_⟩
  · intro h
    cases hi : s.initialised with
    | true =>
      rw [init_of_initialised s hi] at h
      cases h
    | false => rw [init_of_not_initialised s hi]
  · intro h
    cases hi : s.initialised with
    | true => rw [init_of_initialised s hi]
    | false =>
      rw [init_of_not_initialised s hi] at h
      cases h
  · rw [init_of_initialised _ (init_initialised s)]
  · intro h
    simp [Generator.generateScan, init_of_not_initialised g.scanner h]
  · intro g1 e hmode h
    unfold Generator.ScanDir at h
    simp only [hmode, if_false] at h
    split at h
    · cases h
    · rename_i s1 err hr
      simp only [Except.ok.injEq, Prod.mk.injEq] at h
      obtain ⟨hg, _⟩ := h
      have hinit : s1.initialised = true :=
        scanDir_keeps_initialised env fuel _ _ _ _ s1 err hr (init_initialised g.scanner)
      have hgrow : g.scanner.grows s1 :=
        grows_trans (init_grows g.scanner) (scanDir_grows env fuel _ _ _ _ s1 err hr)
      rw [← hg]
      exact ⟨hinit, hgrow, hgen _ hinit⟩

/-! ## Claims on manifest detection -/

theorem foldl_deps (reqs : List Version) :
    ∀ m : Module,
      reqs.foldl (fun mod req => { mod with Deps := mod.Deps ++ [req] }) m =
        { m with Deps := m.Deps ++ reqs } := by
  induction reqs with
  | nil => intro m; simp
  | cons r rs ih =>
    intro m
    rw [List.foldl_cons, ih]
    simp

theorem NewModuleFromModfile_declared (f : File) (ver : Version) (h : f.Module = some ver) :
    NewModuleFromModfile f =
      Except.ok { Version := ver, Deps := f.Require, FilePath := "" } := by
  simp [NewModuleFromModfile, h, foldl_deps, NewModule]

theorem scanModule_declared (env : Env) (s : scanner) (dir data : String) (f : File)
    (ver : Version)
    (hread : env.ReadFile (env.Join dir "go.mod") = Except.ok data)
    (hparse : env.ParseLax (env.Join dir "go.mod") data = Except.ok f)
    (hver : f.Module = some ver) :
    s.scanModule env dir =
      Except.ok
        ({ s with Modules := some (s.Modules.getD [] ++
            [{ Version := ver, Deps := f.Require, FilePath := env.Join dir "go.mod" }]) },
         some { Version := ver, Deps := f.Require, FilePath := env.Join dir "go.mod" },
         none) := by
  simp [scanner.scanModule, hread, hparse, NewModuleFromModfile_declared f ver hver, goAppend]

/-- A call of `scanModule` that returns no Module, or an error, leaves the
scanner as it was. -/
theorem scanModule_failing (env : Env) (s t : scanner) (dir : String)
    (m : Option Module) (e : Option Error)
    (h : s.scanModule env dir = Except.ok (t, m, e)) (hfail : m = none ∨ e ≠ none) :
    t = s := by
  unfold scanner.scanModule at h
  simp only [] at h
  split at h
  · simp only [Except.ok.injEq, Prod.mk.injEq] at h
    exact h.1.symm
  · split at h
    · split at h <;> simp only [Except.ok.injEq, Prod.mk.injEq] at h <;> exact h.1.symm
    · split at h
      · cases h
      · simp only [Except.ok.injEq, Prod.mk.injEq] at h
        obtain ⟨_, hm, he⟩ := h
        rcases hfail with hf | hf
        · rw [hf] at hm
          cases hm
        · exact absurd he.symm hf

/-- C17, on the code: when `<dir>/go.mod` is read and parsed without error,
`scanModule` panics if the manifest declares no module (`file.Module` is
nil); if it declares one, the call appends exactly one Module to Modules
and returns it, with the declared Version, the requirement entries in order
as Deps and `dir` joined with "go.mod" as FilePath, so that a second call
for the same directory leaves two records.  Every call that returns leaves
Packages and the start directory as they were, a call that returns no
Module or an error leaves the whole scanner as it was, and scans keep every
FilePath in Modules non-empty, the join with "go.mod" never being empty. -/
theorem C17_scanModule_registers_module (env : Env) (s : scanner) (dir data : String)
    (f : File)
    (hread : env.ReadFile (env.Join dir "go.mod") = Except.ok data)
    (hparse : env.ParseLax (env.Join dir "go.mod") data = Except.ok f) :
    (f.Module = none → s.scanModule env dir = Except.error Fault.nilDereference) ∧
    (∀ ver : Version, f.Module = some ver →
      s.scanModule env dir =
        Except.ok
          ({ s with Modules := some (s.Modules.getD [] ++
              [{ Version := ver, Deps := f.Require, FilePath := env.Join dir "go.mod" }]) },
           some { Version := ver, Deps := f.Require, FilePath := env.Join dir "go.mod" },
           none) ∧
      scanner.scanModule env
          { s with Modules := some (s.Modules.getD [] ++
              [{ Version := ver, Deps := f.Require, FilePath := env.Join dir "go.mod" }]) }
          dir =
        Except.ok
          ({ s with Modules := some (s.Modules.getD [] ++
              [{ Version := ver, Deps := f.Require, FilePath := env.Join dir "go.mod" },
               { Version := ver, Deps := f.Require, FilePath := env.Join dir "go.mod" }]) },
           some { Version := ver, Deps := f.Require, FilePath := env.Join dir "go.mod" },
           none)) ∧
    (∀ (d : String) (t : scanner) (m : Option Module) (e : Option Error),
      s.scanModule env d = Except.ok (t, m, e) →
      t.Packages = s.Packages ∧ t.startDir = s.startDir ∧
      ((m = none ∨ e ≠ none) → t = s)) ∧
    ((∀ d : String, env.Join d "go.mod" ≠ "") →
      ∀ (fuel : Nat) (d : String) (mode : ScanMode) (filter : ScannerFilter)
        (t : scanner) (e : Option Error),
        (∀ m ∈ s.Modules.getD [], m.FilePath ≠ "") →
        scanner.scanDir env fuel s d mode filter = Except.ok (t, e) →
        ∀ m ∈ t.Modules.getD [], m.FilePath ≠ "") := by
  refine ⟨?_, ?_, ?_, ?_⟩
  · intro hnone
    simp [scanner.scanModule, hread, hparse, NewModuleFromModfile, hnone]
  · intro ver hver
    refine ⟨scanModule_declared env s dir data f ver hread hparse hver, ?_⟩
    have h2 := scanModule_declared env
      { s with Modules := some (s.Modules.getD [] ++
          [{ Version := ver, Deps := f.Require, FilePath := env.Join dir "go.mod" }]) }
      dir data f ver hread hparse hver
    rw [h2]
    simp
  · intro d t m e h
    refine ⟨?_, ?_, scanModule_failing env s t d m e h⟩
    · exact scanModule_rel env (fun a b => b.Packages = a.Packages) (fun _ => rfl)
        (fun _ _ _ _ => rfl) s t d m e h
    · exact scanModule_rel env (fun a b => b.startDir = a.startDir) (fun _ => rfl)
        (fun _ _ _ _ => rfl) s t d m e h
  · intro hjoin fuel d mode filter t e hs h
    exact scanDir_rel env
      (fun a b => (∀ m ∈ a.Modules.getD [], m.FilePath ≠ "") →
        ∀ m ∈ b.Modules.getD [], m.FilePath ≠ "")
      (fun _ ha => ha) (fun _ _ _ h1 h2 ha => h2 (h1 ha))
      (fun a m0 d0 hm0 ha m hm => by
        simp only [goAppend_getD, List.mem_append, List.mem_singleton] at hm
        rcases hm with hm | hm
        · exact ha m hm
        · rw [hm, hm0]
          exact hjoin d0)
      (fun _ _ ha => ha)
      fuel s d mode filter t e h hs

/-- C17 at `/repo/c`, whose `go.mod` is empty, where the call panics, and at
`/repo`, whose manifest declares `example.com/m`. -/
theorem C17_scanModule_registers_module_witness :
    (bareManifestEnv.ReadFile (bareManifestEnv.Join "/repo/c" "go.mod") = Except.ok "" ∧
      bareManifestEnv.ParseLax (bareManifestEnv.Join "/repo/c" "go.mod") ""
        = Except.ok { Module := none, Require := [] }) ∧
    demoScanner.scanModule bareManifestEnv "/repo/c" = Except.error Fault.nilDereference ∧
    demoScanner.scanModule demoEnv "/repo" =
      Except.ok ({ demoScanner with Modules := some [demoRootModule] },
        some demoRootModule, none) :=
  ⟨by decide,
   (C17_scanModule_registers_module bareManifestEnv demoScanner "/repo/c" ""
      { Module := none, Require := [] } (by decide) (by decide)).1 rfl,
   ((C17_scanModule_registers_module demoEnv demoScanner "/repo" demoManifest
      { Module := some { Path := "example.com/m", Version := "v1.0.0" },
        Require := [{ Path := "example.com/dep", Version := "v0.1.0" }] }
      (by decide) (by decide)).2.1 { Path := "example.com/m", Version := "v1.0.0" } rfl).1⟩

end Docgen
